import Mathlib

/-!
# DNSSEC chain-of-trust resolver: embedding and verification

Shallow embedding of the `dnssec` package (key store, record verifier, chain
resolver).  Go maps are association lists with unique keys; the order in which
a `range` loop visits a map is not fixed by Go, so every such loop takes its
visiting order from a `Sched`.  Functions of the DNS library that the package
calls (signature check, key tag, digest computation, case folding) are the
fields of a `Lib`.
-/

set_option autoImplicit false

namespace Dnssec

/-! ## Go maps -/

/-- A Go map: association list, at most one entry per key. -/
abbrev GoMap (κ : Type) (V : Type) := List (κ × V)

namespace GoMap

variable {κ V : Type} [DecidableEq κ]

/-- Map read `m[k]`; `none` is the zero value of a missing key. -/
def get : GoMap κ V → κ → Option V
  | [], _ => none
  | (k1, v) :: rest, k => if k1 = k then some v else get rest k

/-- Map write `m[k] = v`. -/
def set : GoMap κ V → κ → V → GoMap κ V
  | [], k, v => [(k, v)]
  | (k1, v1) :: rest, k, v => if k1 = k then (k, v) :: rest else (k1, v1) :: set rest k v

/-- Map removal `delete(m, k)`. -/
def delete : GoMap κ V → κ → GoMap κ V
  | [], _ => []
  | (k1, v1) :: rest, k => if k1 = k then delete rest k else (k1, v1) :: delete rest k

end GoMap

/-! ## Records and messages (the fields of the DNS library types the package reads) -/

/-- Record header `dns.RR_Header`. -/
structure RR_Header where
  Name : String
  Rrtype : Nat
  Class : Nat
  Ttl : Nat
  deriving DecidableEq, Repr

/-- Signature record `dns.RRSIG`. -/
structure RRSIG where
  Hdr : RR_Header
  TypeCovered : Nat
  Algorithm : Nat
  Labels : Nat
  OrigTtl : Nat
  Expiration : Nat
  Inception : Nat
  KeyTag : Nat
  SignerName : String
  Signature : String
  deriving DecidableEq, Repr

/-- Key record `dns.DNSKEY`. -/
structure DNSKEY where
  Hdr : RR_Header
  Flags : Nat
  Protocol : Nat
  Algorithm : Nat
  PublicKey : String
  deriving DecidableEq, Repr

/-- Delegation digest record `dns.DS`. -/
structure DS where
  Hdr : RR_Header
  KeyTag : Nat
  Algorithm : Nat
  DigestType : Nat
  Digest : String
  deriving DecidableEq, Repr

/-- Absence proof record `dns.NSEC`. -/
structure NSEC where
  Hdr : RR_Header
  NextDomain : String
  TypeBitMap : List Nat
  deriving DecidableEq, Repr

/-- The interface `dns.RR`: the dynamic type of a record is its constructor. -/
inductive RR where
  | rrsig (r : RRSIG)
  | dnskey (k : DNSKEY)
  | ds (d : DS)
  | nsec (n : NSEC)
  | other (hdr : RR_Header) (rdata : String)
  deriving DecidableEq, Repr

/-- Method `rr.Header()`. -/
def RR.Header : RR → RR_Header
  | .rrsig r => r.Hdr
  | .dnskey k => k.Hdr
  | .ds d => d.Hdr
  | .nsec n => n.Hdr
  | .other hdr _ => hdr

/-- Question section entry `dns.Question`. -/
structure Question where
  Name : String
  Qtype : Nat
  deriving DecidableEq, Repr

/-- Message header `dns.MsgHdr`. -/
structure MsgHdr where
  Id : Nat
  Response : Bool
  Opcode : Nat
  Authoritative : Bool
  Truncated : Bool
  RecursionDesired : Bool
  RecursionAvailable : Bool
  Zero : Bool
  AuthenticatedData : Bool
  CheckingDisabled : Bool
  Rcode : Nat
  deriving DecidableEq, Repr

/-- Message `dns.Msg`. -/
structure Msg where
  MsgHdr : MsgHdr
  Compress : Bool
  Question : List Question
  Answer : List RR
  Ns : List RR
  Extra : List RR
  deriving DecidableEq, Repr

def TypeA : Nat := 1
def TypeDS : Nat := 43
def TypeRRSIG : Nat := 46
def TypeNSEC : Nat := 47
def TypeDNSKEY : Nat := 48
/-- Flag bit `dns.ZONE`. -/
def ZONE : Nat := 256

/-- Values of Go type `error` that the package returns.  The first three are the
package variables of type `SecurityStatus`; `Secure` is the nil error, `none`
below. -/
inductive Error where
  | ErrInsecure
  | ErrBogus
  | ErrIndeterminate
  /-- The `fmt.Errorf` of `GetVerifiedZoneKeys` for a root without keys. -/
  | noRootKeys
  /-- An error value returned by `rrsig.Verify` of the DNS library. -/
  | verify (code : Nat)
  /-- An error value returned by the injected query collaborator. -/
  | transport (code : Nat)
  deriving DecidableEq, Repr

/-- The nil error. -/
def Secure : Option Error := none

/-- Functions of the DNS library and of `strings` that the package calls. -/
structure Lib where
  /-- Method `rrsig.Verify(dnskey, rrset)`: `none` is the nil error. -/
  Verify : RRSIG → DNSKEY → List RR → Option Nat
  /-- Method `dnskey.KeyTag()`. -/
  KeyTag : DNSKEY → Nat
  /-- Method `dnskey.ToDS(digestType)`: `none` is the nil pointer returned for an
  unsupported digest type. -/
  ToDS : DNSKEY → Nat → Option DS
  /-- Function `strings.EqualFold`. -/
  EqualFold : String → String → Bool

/-- Visiting orders of the `range` loops over maps. -/
structure Sched where
  sigs : GoMap Nat RRSIG → GoMap Nat RRSIG
  sets : GoMap Nat (List RR) → GoMap Nat (List RR)
  keys : GoMap Nat DNSKEY → GoMap Nat DNSKEY

/-- A visiting order visits every entry of the map exactly once. -/
structure Sched.Fair (S : Sched) : Prop where
  sigs : ∀ m, (S.sigs m).Perm m
  sets : ∀ m, (S.sets m).Perm m
  keys : ∀ m, (S.keys m).Perm m

/-- The order that visits entries in list order. -/
def Sched.inOrder : Sched := ⟨id, id, id⟩

/-- The order that visits entries in reverse list order. -/
def Sched.reversed : Sched := ⟨List.reverse, List.reverse, List.reverse⟩

/-! ## dnssec_verify_message.go -/

/-- Go function `extractRRSet`. -/
def extractRRSet (rrs : List RR) (t : Nat) : List RR :=
  rrs.filter (fun rr => rr.Header.Rrtype = t)

/-- First loop of `VerifyMsgSignature`: `rrsigs[rrsig.KeyTag] = rrsig` for every
signature record of the section. -/
def collectRRSIGs : List RR → GoMap Nat RRSIG → GoMap Nat RRSIG
  | [], m => m
  | .rrsig r :: rest, m => collectRRSIGs rest (m.set r.KeyTag r)
  | _ :: rest, m => collectRRSIGs rest m

/-- Second loop of `VerifyMsgSignature` over the visited entries of `rrsigs`,
with the loop state `(err, rrsetSigned)`; `Except.error` is the early
`return` on a failed check. -/
def verifyLoop (L : Lib) (rrset : List RR) (trustedSignerKeys : GoMap Nat DNSKEY) :
    List (Nat × RRSIG) → Option Error × GoMap Nat (List RR) →
    Except Error (Option Error × GoMap Nat (List RR))
  | [], st => .ok st
  | (keytag, rrsig) :: rest, (err, rrsetSigned) =>
    if ((rrsetSigned.get rrsig.TypeCovered).getD []).length > 0 then
      verifyLoop L rrset trustedSignerKeys rest (err, rrsetSigned)
    else
      match trustedSignerKeys.get keytag with
      | none => verifyLoop L rrset trustedSignerKeys rest (err, rrsetSigned)
      | some dnskey =>
        let subrrset := extractRRSet rrset rrsig.TypeCovered
        if subrrset.length = 0 then
          verifyLoop L rrset trustedSignerKeys rest (err, rrsetSigned)
        else
          match L.Verify rrsig dnskey subrrset with
          | some code => .error (.verify code)
          | none =>
            verifyLoop L rrset trustedSignerKeys rest
              (Secure, rrsetSigned.set rrsig.TypeCovered subrrset)

/-- Third loop of `VerifyMsgSignature`: the verified sets appended, in visiting
order, to the answer or to the authority section of the new message. -/
def appendSigned (toAnswer : Bool) : List (Nat × List RR) → Msg → Msg
  | [], msg => msg
  | (_, rrset) :: rest, msg =>
    appendSigned toAnswer rest
      (if toAnswer then { msg with Answer := msg.Answer ++ rrset }
       else { msg with Ns := msg.Ns ++ rrset })

/-- The section `VerifyMsgSignature` authenticates (its variable `rrset`): the
answer when it is not empty, else the authority section. -/
def Msg.rrset (msg : Msg) : List RR :=
  if msg.Answer.length > 0 then msg.Answer else msg.Ns

/-- Go function `VerifyMsgSignature`, returning `(signedMsg, err)`. -/
def VerifyMsgSignature (L : Lib) (S : Sched) (msgToVerify : Msg)
    (expectedSignerFqdn : String) (trustedSignerKeys : Option (GoMap Nat DNSKEY)) :
    Option Msg × Option Error :=
  let _ := expectedSignerFqdn
  let msg : Msg :=
    { MsgHdr := msgToVerify.MsgHdr, Compress := msgToVerify.Compress,
      Question := msgToVerify.Question, Answer := [], Ns := [],
      Extra := msgToVerify.Extra }
  let rrset := msgToVerify.rrset
  let rrsigs := collectRRSIGs rrset []
  if rrsigs.length = 0 then (none, some .ErrBogus)
  else
    match verifyLoop L rrset (trustedSignerKeys.getD []) (S.sigs rrsigs)
        (some .ErrInsecure, []) with
    | .error e => (none, some e)
    | .ok (err, rrsetSigned) =>
      if err = Secure ∧ rrsetSigned.length > 0 then
        (some (appendSigned (decide (msgToVerify.Answer.length > 0)) (S.sets rrsetSigned) msg),
          err)
      else (none, err)

/-- The message `VerifyMsgSignature` returns when exactly the record set
`rrset` was verified. -/
def Msg.signedWith (msg : Msg) (rrset : List RR) : Msg :=
  if msg.Answer.length > 0 then
    { MsgHdr := msg.MsgHdr, Compress := msg.Compress, Question := msg.Question,
      Answer := rrset, Ns := [], Extra := msg.Extra }
  else
    { MsgHdr := msg.MsgHdr, Compress := msg.Compress, Question := msg.Question,
      Answer := [], Ns := rrset, Extra := msg.Extra }

/-- An entry of the signature map that the second loop passes over: its key tag
is not in the trusted key set, or it covers a type with no record in the
section. -/
def Skipped (rrset : List RR) (keys : GoMap Nat DNSKEY) (e : Nat × RRSIG) : Prop :=
  keys.get e.1 = none ∨ extractRRSet rrset e.2.TypeCovered = []

/-! ## Names (functions of the DNS library used on zone names) -/

/-- Library function `dns.IsFqdn`: the name ends in a dot that is not escaped,
that is, the dot is preceded by an even number of backslashes. -/
def IsFqdn (s : String) : Bool :=
  match s.data.reverse with
  | [] => false
  | c :: rest =>
    if c ≠ '.' then false
    else ((rest.takeWhile (fun x => x = '\\')).length + 1) % 2 ≠ 0

/-- Library function `dns.Fqdn`. -/
def Fqdn (s : String) : String :=
  if IsFqdn s then s else s ++ "."

/-- Loop of `dns.NextLabel` started at offset 0: `i` is the index of the head of
the list, `bs` the number of consecutive backslashes right before it.  The last
byte of the name is never examined (`i < len(s)-1`). -/
def nextLabelLoop : List Char → Nat → Nat → Nat × Bool
  | [], i, _ => (i + 1, true)
  | [_], i, _ => (i + 1, true)
  | c :: d :: rest, i, bs =>
    if c ≠ '.' then nextLabelLoop (d :: rest) (i + 1) (if c = '\\' then bs + 1 else 0)
    else if (bs + 1) % 2 = 0 then nextLabelLoop (d :: rest) (i + 1) 0
    else (i + 1, false)

/-- Library function `dns.NextLabel(s, 0)`. -/
def NextLabel (s : String) : Nat × Bool :=
  if s = "" then (0, true) else nextLabelLoop s.data 0 0

/-- Go function `getParentFQDN`. -/
def getParentFQDN (fqdn : String) : String :=
  Fqdn (String.mk (fqdn.data.drop (NextLabel fqdn).1))

/-! ## dnssec_keystore.go -/

/-- Go type `KeyStore` (the mutex is not modelled: calls are sequential). -/
structure KeyStore where
  store : GoMap String (GoMap Nat DNSKEY)
  signingZoneMap : GoMap String String
  deriving DecidableEq, Repr

namespace KeyStore

/-- Go method `addLocked`. -/
def addLocked (L : Lib) (ks : KeyStore) (key : DNSKEY) : KeyStore :=
  let fqdn := Fqdn key.Hdr.Name
  { ks with store := ks.store.set fqdn (((ks.store.get fqdn).getD []).set (L.KeyTag key) key) }

/-- The loop `for _, key := range keys { ks.addLocked(key) }` over visited entries. -/
def addAll (L : Lib) : List (Nat × DNSKEY) → KeyStore → KeyStore
  | [], ks => ks
  | (_, key) :: rest, ks => addAll L rest (addLocked L ks key)

/-- Go function `NewKeyStore`. -/
def NewKeyStore (L : Lib) (S : Sched) (keys : Option (GoMap Nat DNSKEY)) : KeyStore :=
  addAll L (S.keys (keys.getD [])) { store := [], signingZoneMap := [] }

/-- Go method `Get`: `(signingZoneFqdn, signingZoneKeys)`. -/
def Get (ks : KeyStore) (fqdn : String) : String × Option (GoMap Nat DNSKEY) :=
  ((ks.signingZoneMap.get fqdn).getD "", ks.store.get fqdn)

/-- Go method `Add`. -/
def Add (L : Lib) (S : Sched) (ks : KeyStore) (childZoneFqdn signingZoneFqdn : String)
    (signingZoneKeys : Option (GoMap Nat DNSKEY)) : KeyStore :=
  addAll L (S.keys (signingZoneKeys.getD []))
    { ks with signingZoneMap := ks.signingZoneMap.set childZoneFqdn signingZoneFqdn }

/-- Go method `SetEmptyZone`. -/
def SetEmptyZone (ks : KeyStore) (fqdn : String) : KeyStore :=
  let signingZoneFqdn := (ks.signingZoneMap.get fqdn).getD ""
  { store := ks.store.delete signingZoneFqdn,
    signingZoneMap := ks.signingZoneMap.delete fqdn }

end KeyStore

/-! ## dnssec_resolver.go -/

/-- The injected query collaborator (interface `DNSResolver`): a state machine
over `σ` answering a question with a response or a transport error code. -/
structure DNSResolver (σ : Type) where
  Query : σ → Question → Except Nat Msg × σ

/-- Go type `Resolver`: the key store, the state of the collaborator, and the
questions sent to it so far (oldest first). -/
structure Resolver (σ : Type) where
  keystore : KeyStore
  net : σ
  sent : List Question
  deriving DecidableEq

/-- How a call ends: it returns, it panics (nil dereference), or the recursion
budget of the model is used up. -/
inductive Outcome (α : Type) where
  | ret (a : α)
  | panic
  | diverge
  deriving DecidableEq, Repr

/-- The values a call returns, when it returns. -/
def Outcome.result {α ρ : Type} : Outcome (α × ρ) → Option α
  | .ret (a, _) => some a
  | _ => none

/-- The resolver state a call leaves behind, when it returns. -/
def Outcome.final {α ρ : Type} : Outcome (α × ρ) → Option ρ
  | .ret (_, r) => some r
  | _ => none

/-- Go function `New` for a given collaborator; `none` is the error for an empty
trust anchor set. -/
def New {σ : Type} (L : Lib) (S : Sched) (trustAnchors : Option (GoMap Nat DNSKEY))
    (net : σ) : Option (Resolver σ) :=
  if (trustAnchors.getD []).length < 1 then none
  else some { keystore := KeyStore.NewKeyStore L S trustAnchors, net := net, sent := [] }

/-- One call `resolver.dnsResolver.Query(msg)` for the question `(name, typ)`. -/
def Resolver.ask {σ : Type} (D : DNSResolver σ) (r : Resolver σ) (name : String) (typ : Nat) :
    Except Nat Msg × Resolver σ :=
  let q : Question := ⟨name, typ⟩
  let res := D.Query r.net q
  (res.1, { r with net := res.2, sent := r.sent ++ [q] })

/-- Search of the authority section for an NSEC record owned by `fqdn`. -/
def hasNSECFor (L : Lib) (ns : List RR) (fqdn : String) : Bool :=
  ns.any (fun rr => match rr with
    | .nsec n => L.EqualFold n.Hdr.Name fqdn
    | _ => false)

/-- The loop `dsRRMap[ds.KeyTag] = ds` over the answer. -/
def dsRRMap : List RR → GoMap Nat DS → GoMap Nat DS
  | [], m => m
  | .ds d :: rest, m => dsRRMap rest (m.set d.KeyTag d)
  | _ :: rest, m => dsRRMap rest m

/-- The loop `m[dnskey.KeyTag()] = dnskey` over the answer (used for
`dnskeyRRMap` and for the final union into `zoneKeys`). -/
def dnskeyRRMap (L : Lib) : List RR → GoMap Nat DNSKEY → GoMap Nat DNSKEY
  | [], m => m
  | .dnskey k :: rest, m => dnskeyRRMap L rest (m.set (L.KeyTag k) k)
  | _ :: rest, m => dnskeyRRMap L rest m

/-- The digest-matching loop over the visited entries of `dnskeyRRMap`; `none`
is the nil dereference `dsExpect.Digest` when `ToDS` returns nil. -/
def matchZoneKeys (L : Lib) (dsMap : GoMap Nat DS) :
    List (Nat × DNSKEY) → GoMap Nat DNSKEY → Option (GoMap Nat DNSKEY)
  | [], zoneKeys => some zoneKeys
  | (_, dnskey) :: rest, zoneKeys =>
    if dnskey.Flags &&& ZONE ≠ 0 then
      match dsMap.get (L.KeyTag dnskey) with
      | none => matchZoneKeys L dsMap rest zoneKeys
      | some ds =>
        if dnskey.Algorithm = ds.Algorithm then
          match L.ToDS dnskey ds.DigestType with
          | none => none
          | some dsExpect =>
            if L.EqualFold ds.Digest dsExpect.Digest then
              matchZoneKeys L dsMap rest (zoneKeys.set (L.KeyTag dnskey) dnskey)
            else matchZoneKeys L dsMap rest zoneKeys
        else matchZoneKeys L dsMap rest zoneKeys
    else matchZoneKeys L dsMap rest zoneKeys

/-- Result triple `(signingZoneFQDN, signingZoneKeys, err)`. -/
abbrev ZoneKeys := String × Option (GoMap Nat DNSKEY) × Option Error

/-- Go method `GetVerifiedZoneKeys`; the first argument bounds the depth of the
recursion on the parent name. -/
def GetVerifiedZoneKeys {σ : Type} (L : Lib) (S : Sched) (D : DNSResolver σ) :
    Nat → Resolver σ → String → Outcome (ZoneKeys × Resolver σ)
  | 0, _, _ => .diverge
  | depth + 1, r, fqdn =>
    let got := r.keystore.Get fqdn
    if got.2.isSome then .ret ((got.1, got.2, none), r)
    else if fqdn = "." then .ret ((got.1, got.2, some .noRootKeys), r)
    else
      match GetVerifiedZoneKeys L S D depth r (getParentFQDN fqdn) with
      | .diverge => .diverge
      | .panic => .panic
      | .ret ((_, _, some e), r1) => .ret ((got.1, got.2, some e), r1)
      | .ret ((parentZoneFqdn, parentKeys, none), r1) =>
        match r1.ask D fqdn TypeDNSKEY with
        | (.error c, r2) => .ret ((got.1, got.2, some (.transport c)), r2)
        | (.ok dnskeyMsg, r2) =>
          match r2.ask D fqdn TypeDS with
          | (.error c, r3) => .ret ((got.1, got.2, some (.transport c)), r3)
          | (.ok dsMsg0, r3) =>
            match VerifyMsgSignature L S dsMsg0 parentZoneFqdn parentKeys with
            | (_, some e) => .ret ((got.1, got.2, some e), r3)
            | (none, none) => .panic
            | (some dsMsg, none) =>
              if dsMsg.Answer.length = 0 then
                if hasNSECFor L dsMsg.Ns fqdn then
                  .ret ((parentZoneFqdn, parentKeys, none),
                    { r3 with keystore :=
                        r3.keystore.Add L S fqdn parentZoneFqdn parentKeys })
                else .ret ((got.1, got.2, some .ErrBogus), r3)
              else
                let dsMap := dsRRMap dsMsg.Answer []
                let keyMap := dnskeyRRMap L dnskeyMsg.Answer []
                match matchZoneKeys L dsMap (S.keys keyMap) [] with
                | none => .panic
                | some zoneKeys =>
                  match VerifyMsgSignature L S dnskeyMsg fqdn (some zoneKeys) with
                  | (_, some e) => .ret ((got.1, got.2, some e), r3)
                  | (none, none) => .panic
                  | (some dnskeyMsg1, none) =>
                    let zoneKeys1 := dnskeyRRMap L dnskeyMsg1.Answer zoneKeys
                    .ret ((fqdn, some zoneKeys1, none),
                      { r3 with keystore := r3.keystore.Add L S fqdn fqdn (some zoneKeys1) })

/-- Go method `Resolver.Query`, returning `(msg, err)`.  The result `msg` is the
variable that holds the response of the collaborator; on a transport error the
collaborator gives no message. -/
def Resolver.Query {σ : Type} (L : Lib) (S : Sched) (D : DNSResolver σ) (depth : Nat)
    (r : Resolver σ) (name : String) (typ : Nat) :
    Outcome ((Option Msg × Option Error) × Resolver σ) :=
  let fqdn := Fqdn name
  match r.ask D fqdn typ with
  | (.error c, r1) => .ret ((none, some (.transport c)), r1)
  | (.ok msg, r1) =>
    match GetVerifiedZoneKeys L S D depth r1 fqdn with
    | .diverge => .diverge
    | .panic => .panic
    | .ret ((_, _, some e), r2) => .ret ((some msg, some e), r2)
    | .ret ((signingZoneFQDN, signingZoneKeys, none), r2) =>
      match VerifyMsgSignature L S msg signingZoneFQDN signingZoneKeys with
      | (_, err) => .ret ((some msg, err), r2)

/-! ## The signed chain of the end-to-end scenario -/

/-- The records and responses of a chain root, `example.`, `www.example.`:
root key `K1`, key `K2` of `example.`, the DS record of `example.` and its
signature, the signature of the DNSKEY set of `example.`, the NSEC record of
`www.example.` and its signature, the A record of `www.example.` and its
signature, and the five responses of the collaborator. -/
structure Chain where
  K1 : DNSKEY
  K2 : DNSKEY
  ds : DS
  sigDS : RRSIG
  sigKEY : RRSIG
  nsec : NSEC
  sigNSEC : RRSIG
  hdrA : RR_Header
  addrA : String
  sigA : RRSIG
  mDS : Msg
  mKEY : Msg
  mWDS : Msg
  mWKEY : Msg
  mA : Msg

/-- The A record of the chain. -/
def Chain.recA (c : Chain) : RR := .other c.hdrA c.addrA

/-! ## A concrete world: root key `K1`, zone `example.` with key `K2`, and the
name `www.example.` that has no delegation of its own -/

namespace Example

/-- A toy DNS library: the key tag is a checksum of the key material, a
signature checks when its signature field names the key, the digest of a key
(digest type 2 only) is its key material in upper case. -/
def lib : Lib where
  Verify := fun rrsig dnskey _ =>
    if rrsig.Signature = "by-" ++ dnskey.PublicKey then none else some 1
  KeyTag := fun dnskey => (dnskey.PublicKey.data.map Char.toNat).sum % 65536
  ToDS := fun dnskey digestType =>
    if digestType = 2 then
      some { Hdr := { dnskey.Hdr with Rrtype := TypeDS },
             KeyTag := (dnskey.PublicKey.data.map Char.toNat).sum % 65536,
             Algorithm := dnskey.Algorithm, DigestType := digestType,
             Digest := String.mk (dnskey.PublicKey.data.map Char.toUpper) }
    else none
  EqualFold := fun a b => a.data.map Char.toLower = b.data.map Char.toLower

def hdr (name : String) (t : Nat) : RR_Header := ⟨name, t, 1, 3600⟩

/-- Root key, key tag 826. -/
def K1 : DNSKEY := ⟨hdr "." TypeDNSKEY, 257, 3, 8, "root-key"⟩
/-- Key of `example.`, key tag 1122. -/
def K2 : DNSKEY := ⟨hdr "example." TypeDNSKEY, 257, 3, 8, "example-key"⟩

/-- A signature record by `key` that checks under `lib`. -/
def sigBy (owner : String) (covered : Nat) (signer : String) (key : DNSKEY) : RRSIG :=
  { Hdr := hdr owner TypeRRSIG, TypeCovered := covered, Algorithm := 8, Labels := 2,
    OrigTtl := 3600, Expiration := 2000000000, Inception := 1000000000,
    KeyTag := lib.KeyTag key, SignerName := signer, Signature := "by-" ++ key.PublicKey }

/-- A signature record carrying the key tag of `key` that fails under `lib`. -/
def badSigBy (owner : String) (covered : Nat) (signer : String) (key : DNSKEY) : RRSIG :=
  { sigBy owner covered signer key with Signature := "corrupted" }

/-- A second key of `example.`, key tag 1137. -/
def K3 : DNSKEY := ⟨hdr "example." TypeDNSKEY, 256, 3, 8, "example-zsk"⟩

def reply (answer ns : List RR) : Msg :=
  { MsgHdr := ⟨0, true, 0, false, false, true, true, false, false, false, 0⟩,
    Compress := false, Question := [], Answer := answer, Ns := ns, Extra := [] }

def recA : RR := .other (hdr "www.example." TypeA) "192.0.2.1"
/-- An AAAA record that no signature covers. -/
def recForged : RR := .other (hdr "www.example." 28) "2001:db8::bad"
def recDS : RR := .ds ⟨hdr "example." TypeDS, lib.KeyTag K2, 8, 2, "example-KEY"⟩
def recNSEC : RR :=
  .nsec ⟨hdr "www.example." TypeNSEC, "zzz.example.", [TypeA, TypeRRSIG, TypeNSEC]⟩

def recTXT : RR := .other (hdr "www.example." 16) "v=spf1 -all"

/-- A signed A record set next to a TXT record set whose signature is corrupted. -/
def mixedA : List RR :=
  [recA, .rrsig (sigBy "www.example." TypeA "example." K2),
   recTXT, .rrsig (badSigBy "www.example." 16 "example." K3)]

def signedA : List RR := [recA, .rrsig (sigBy "www.example." TypeA "example." K2)]
def forgedA : List RR := [recA, .rrsig (sigBy "www.example." TypeA "example." K2), recForged]

/-- A stateless collaborator serving the signed chain; `aAnswer` is the answer
section it gives for `www.example.` type A. -/
def net (aAnswer : List RR) : DNSResolver Unit where
  Query := fun _ q =>
    (if q = ⟨"example.", TypeDS⟩ then
      .ok (reply [recDS, .rrsig (sigBy "example." TypeDS "." K1)] [])
    else if q = ⟨"example.", TypeDNSKEY⟩ then
      .ok (reply [.dnskey K2, .rrsig (sigBy "example." TypeDNSKEY "example." K2)] [])
    else if q = ⟨"www.example.", TypeDS⟩ then
      .ok (reply [] [recNSEC, .rrsig (sigBy "www.example." TypeNSEC "example." K2)])
    else if q = ⟨"www.example.", TypeDNSKEY⟩ then
      .ok (reply [] [])
    else if q = ⟨"www.example.", TypeA⟩ then
      .ok (reply aAnswer [])
    else .error 1, ())

/-- A key store in which `example.` and `www.example.` both alias to the signing
zone `example.`. -/
def twoAliases : KeyStore :=
  KeyStore.Add lib Sched.inOrder
    (KeyStore.Add lib Sched.inOrder { store := [], signingZoneMap := [] }
      "example." "example." (some [(1122, K2)]))
    "www.example." "example." (some [(1122, K2)])

/-- The chain that `net signedA` serves. -/
def chain : Chain where
  K1 := K1
  K2 := K2
  ds := ⟨hdr "example." TypeDS, lib.KeyTag K2, 8, 2, "example-KEY"⟩
  sigDS := sigBy "example." TypeDS "." K1
  sigKEY := sigBy "example." TypeDNSKEY "example." K2
  nsec := ⟨hdr "www.example." TypeNSEC, "zzz.example.", [TypeA, TypeRRSIG, TypeNSEC]⟩
  sigNSEC := sigBy "www.example." TypeNSEC "example." K2
  hdrA := hdr "www.example." TypeA
  addrA := "192.0.2.1"
  sigA := sigBy "www.example." TypeA "example." K2
  mDS := reply [recDS, .rrsig (sigBy "example." TypeDS "." K1)] []
  mKEY := reply [.dnskey K2, .rrsig (sigBy "example." TypeDNSKEY "example." K2)] []
  mWDS := reply [] [recNSEC, .rrsig (sigBy "www.example." TypeNSEC "example." K2)]
  mWKEY := reply [] []
  mA := reply signedA []

/-- A resolver whose key store already serves `example.`. -/
def cached : Resolver Unit := { keystore := twoAliases, net := (), sent := [] }

/-- The resolver that `New` builds with `K1` as the only trust anchor. -/
def start : Resolver Unit :=
  { keystore := KeyStore.NewKeyStore lib Sched.inOrder (some [(lib.KeyTag K1, K1)]),
    net := (), sent := [] }

/-- The first call `Query("www.example.", A)` on the fresh resolver. -/
def firstRun : Outcome ((Option Msg × Option Error) × Resolver Unit) :=
  Resolver.Query lib Sched.inOrder (net signedA) 3 start "www.example." TypeA

/-- The same call issued again on the resolver the first call leaves behind. -/
def secondRun : Outcome ((Option Msg × Option Error) × Resolver Unit) :=
  match firstRun.final with
  | some r => Resolver.Query lib Sched.inOrder (net signedA) 3 r "www.example." TypeA
  | none => .diverge

/-- The resolver after `example.` has been resolved from `start`. -/
def afterExample : Resolver Unit :=
  { keystore :=
      { store := [(".", [(826, K1)]), ("example.", [(1122, K2)])],
        signingZoneMap := [("example.", "example.")] },
    net := (),
    sent := [⟨"example.", TypeDNSKEY⟩, ⟨"example.", TypeDS⟩] }

end Example

namespace Example

/-- A collaborator that answers the A question for `www.example.` and fails on
every other question with the transport error 7. -/
def netDown : DNSResolver Unit where
  Query := fun _ q =>
    (if q = ⟨"www.example.", TypeA⟩ then .ok (reply signedA []) else .error 7, ())

/-- A collaborator for `ftp.example.`: its DS response has an empty answer and a
signed authority section whose NSEC record is owned by `www.example.`. -/
def netNoProof : DNSResolver Unit where
  Query := fun _ q =>
    (if q = ⟨"ftp.example.", TypeDS⟩ then
      .ok (reply [] [recNSEC, .rrsig (sigBy "www.example." TypeNSEC "example." K2)])
    else if q = ⟨"ftp.example.", TypeDNSKEY⟩ then
      .ok (reply [] [])
    else .error 1, ())

end Example

/-! ## trust/dnssec_trust_anchor.go -/

/-- Go type `KeyDigest`: the embedded `dns.DS` and the validity window; an
instant of `time.Time` is an integer, `none` is the nil pointer. -/
structure KeyDigest where
  DS : DS
  ID : String
  ValidFrom : Option Int
  ValidUntil : Option Int
  deriving DecidableEq, Repr

/-- Go type `TrustAnchor`. -/
structure TrustAnchor where
  ID : String
  Source : String
  Zone : String
  KeyDigest : List KeyDigest
  deriving DecidableEq, Repr

/-- Values of Go type `error` that the `trust` package returns. -/
inductive TrustError where
  /-- The `fmt.Errorf` of `KeyDigest.Verify` for a missing `validFrom`. -/
  | noValidFrom (id : String)
  /-- The `fmt.Errorf` of `KeyDigest.Verify` for an entry outside its window. -/
  | invalidAt (id : String) (now : Int)
  /-- An error of `httpClient.Get`. -/
  | http (code : Nat)
  /-- The `fmt.Errorf` of `fetchURL` for a status other than 200. -/
  | statusCode (code : Nat) (url : String)
  /-- The wrapped error of `io.ReadAll`. -/
  | readBody (code : Nat) (url : String)
  /-- An error of `pkcs7.Parse`. -/
  | pkcs7Parse (code : Nat)
  /-- An error of `VerifyWithChain` against the pinned root authority. -/
  | pkcs7Verify (code : Nat)
  /-- An error of `xml.Unmarshal`. -/
  | xml (code : Nat)
  /-- An error of the injected query collaborator. -/
  | transport (code : Nat)
  /-- The `fmt.Errorf` for an empty set of matched root keys. -/
  | noRootKey
  /-- An error returned by `dnssec.VerifyMsgSignature`. -/
  | status (e : Error)
  deriving DecidableEq, Repr

/-- Go method `KeyDigest.Verify`, with the value of `time.Now()` as `now`. -/
def KeyDigest.Verify (now : Int) (keyDigest : KeyDigest) : Option TrustError :=
  match keyDigest.ValidFrom with
  | none => some (.noValidFrom keyDigest.ID)
  | some validFrom =>
    if decide (now < validFrom) ||
        (match keyDigest.ValidUntil with
          | some validUntil => decide (validUntil < now)
          | none => false) then
      some (.invalidAt keyDigest.ID now)
    else none

/-! ## trust/dnssec_trust_fetcher.go -/

def URL_ROOT_ANCHORS : String := "https://data.iana.org/root-anchors/root-anchors.xml"
def URL_ROOT_ANCHORS_SIGNATURE : String := "https://data.iana.org/root-anchors/root-anchors.p7s"

/-- What `httpClient.Get` hands back: the status code and the outcome of reading
the body. -/
structure HTTPResponse where
  StatusCode : Nat
  Body : Except Nat String

/-- The parsed signature container `pkcs7.PKCS7`: the signed data and the
attached content. -/
structure PKCS7 where
  Signed : String
  Content : String
  deriving DecidableEq, Repr

/-- Collaborators of the bootstrap outside the package: the HTTP client, the
PKCS7 and XML libraries (the check is against the pinned pool
`ICANN_ROOT_CA_POOL`), and the clock, which does not advance during a call. -/
structure TrustEnv where
  Get : String → Except Nat HTTPResponse
  pkcs7Parse : String → Except Nat PKCS7
  VerifyWithChain : PKCS7 → Option Nat
  xmlUnmarshal : String → Except Nat TrustAnchor
  now : Int

/-- Go method `fetchURL`. -/
def fetchURL (E : TrustEnv) (url : String) : Except TrustError String :=
  match E.Get url with
  | .error c => .error (.http c)
  | .ok resp =>
    if resp.StatusCode ≠ 200 then .error (.statusCode resp.StatusCode url)
    else
      match resp.Body with
      | .error c => .error (.readBody c url)
      | .ok data => .ok data

/-- The loop that filters the trust anchors by their validity window:
`trustKeyDigests[keyDigest.KeyTag] = keyDigest` for every entry `Verify`
accepts; a rejected entry resets `err` and is passed over. -/
def trustKeyDigests (now : Int) : List KeyDigest → GoMap Nat KeyDigest → GoMap Nat KeyDigest
  | [], m => m
  | keyDigest :: rest, m =>
    match keyDigest.Verify now with
    | some _ => trustKeyDigests now rest m
    | none => trustKeyDigests now rest (m.set keyDigest.DS.KeyTag keyDigest)

/-- The digest-matching loop over the answer of the root key-set response;
`none` is the nil dereference `ds.Digest` when `ToDS` returns nil. -/
def matchRootKeys (L : Lib) (digests : GoMap Nat KeyDigest) :
    List RR → GoMap Nat DNSKEY → Option (GoMap Nat DNSKEY)
  | [], rootKeys => some rootKeys
  | .dnskey dnskey :: rest, rootKeys =>
    match digests.get (L.KeyTag dnskey) with
    | none => matchRootKeys L digests rest rootKeys
    | some keyDigest =>
      match L.ToDS dnskey keyDigest.DS.DigestType with
      | none => none
      | some ds =>
        if L.EqualFold ds.Digest keyDigest.DS.Digest then
          matchRootKeys L digests rest (rootKeys.set (L.KeyTag dnskey) dnskey)
        else matchRootKeys L digests rest rootKeys
  | _ :: rest, rootKeys => matchRootKeys L digests rest rootKeys

/-- The package variable `cachedRootKeys` and the state of the query
collaborator of a `RootTrustFetcher`. -/
structure RootTrustFetcher (σ : Type) where
  cachedRootKeys : Option (GoMap Nat DNSKEY)
  net : σ
  deriving DecidableEq

/-- Go method `FetchVerifyRootKeys`, returning `(rootKeys, err)`. -/
def FetchVerifyRootKeys {σ : Type} (L : Lib) (S : Sched) (E : TrustEnv) (D : DNSResolver σ)
    (rtf : RootTrustFetcher σ) :
    Outcome ((Option (GoMap Nat DNSKEY) × Option TrustError) × RootTrustFetcher σ) :=
  let rootKeys := rtf.cachedRootKeys
  if (rootKeys.getD []).length > 0 then .ret ((rootKeys, none), rtf)
  else
    match fetchURL E URL_ROOT_ANCHORS with
    | .error e => .ret ((rootKeys, some e), rtf)
    | .ok trustAnchorsXML =>
      match fetchURL E URL_ROOT_ANCHORS_SIGNATURE with
      | .error e => .ret ((rootKeys, some e), rtf)
      | .ok trustAnchorsSignature =>
        match E.pkcs7Parse trustAnchorsSignature with
        | .error c => .ret ((rootKeys, some (.pkcs7Parse c)), rtf)
        | .ok trustAnchorsP7 =>
          match E.VerifyWithChain { trustAnchorsP7 with Content := trustAnchorsXML } with
          | some c => .ret ((rootKeys, some (.pkcs7Verify c)), rtf)
          | none =>
            match E.xmlUnmarshal trustAnchorsXML with
            | .error c => .ret ((rootKeys, some (.xml c)), rtf)
            | .ok trustAnchors =>
              let digests := trustKeyDigests E.now trustAnchors.KeyDigest []
              match D.Query rtf.net ⟨".", TypeDNSKEY⟩ with
              | (.error c, net1) =>
                .ret ((rootKeys, some (.transport c)), { rtf with net := net1 })
              | (.ok msg, net1) =>
                match matchRootKeys L digests msg.Answer [] with
                | none => .panic
                | some rootKeys1 =>
                  if rootKeys1.length < 1 then
                    .ret ((some rootKeys1, some .noRootKey), { rtf with net := net1 })
                  else
                    match VerifyMsgSignature L S msg "." (some rootKeys1) with
                    | (_, some e) =>
                      .ret ((some rootKeys1, some (.status e)), { rtf with net := net1 })
                    | (none, none) => .panic
                    | (some msg1, none) =>
                      let rootKeys2 := dnskeyRRMap L msg1.Answer rootKeys1
                      .ret ((some rootKeys2, none),
                        { cachedRootKeys := some rootKeys2, net := net1 })

/-! ## Vocabulary of the statements -/

/-- The key store holds a key with key tag `tag` in the entry of `zone`. -/
def KeyStore.has (ks : KeyStore) (zone : String) (tag : Nat) : Bool :=
  match ks.store.get zone with
  | some keys => (keys.get tag).isSome
  | none => false

/-- The DS record `ds` vouches for the key `dnskey`: same key tag, same
algorithm, and the digest recomputed with the digest type of `ds` equals the
digest of `ds` up to letter case. -/
def dsMatches (L : Lib) (ds : DS) (dnskey : DNSKEY) : Bool :=
  decide (ds.KeyTag = L.KeyTag dnskey) && decide (dnskey.Algorithm = ds.Algorithm) &&
    (match L.ToDS dnskey ds.DigestType with
      | some dsExpect => L.EqualFold ds.Digest dsExpect.Digest
      | none => false)

/-- The environment in which the trust-anchor document has lost every entry
that `KeyDigest.Verify` rejects at the time of the call. -/
def TrustEnv.dropRejected (E : TrustEnv) : TrustEnv :=
  { E with xmlUnmarshal := fun data =>
      match E.xmlUnmarshal data with
      | .error c => .error c
      | .ok trustAnchors =>
        .ok { trustAnchors with
          KeyDigest := trustAnchors.KeyDigest.filter
            (fun keyDigest => (keyDigest.Verify E.now).isNone) } }

/-- A bootstrap call started in state `rtf` that returns either returns a nil
error or leaves `cachedRootKeys` as it was. -/
def RootTrustFetcher.cacheKept {σ : Type} (rtf : RootTrustFetcher σ)
    (out : Outcome ((Option (GoMap Nat DNSKEY) × Option TrustError) × RootTrustFetcher σ)) :
    Prop :=
  match out with
  | .ret ((_, err), rtf1) => err = none ∨ rtf1.cachedRootKeys = rtf.cachedRootKeys
  | _ => True

namespace Example

/-- A second key of `example.` whose checksum key tag collides with that of
`K2` (tag 1122). -/
def K2c : DNSKEY := ⟨hdr "example." TypeDNSKEY, 257, 3, 8, "example-kye"⟩

/-- A root key whose zone flag is clear (flags 1), key tag 826. -/
def K0 : DNSKEY := ⟨hdr "." TypeDNSKEY, 1, 3, 8, "root-key"⟩

def recDSc : RR := .ds ⟨hdr "example." TypeDS, lib.KeyTag K2c, 8, 2, "EXAMPLE-KYE"⟩
def recApex : RR := .other (hdr "example." TypeA) "192.0.2.80"

/-- A collaborator whose DNSKEY response for `example.` holds `K2`, an A record
and the signature of `K2` over the A record, and no signature over the DNSKEY
record. -/
def netStripped : DNSResolver Unit where
  Query := fun _ q =>
    (if q = ⟨"example.", TypeDS⟩ then
      .ok (reply [recDS, .rrsig (sigBy "example." TypeDS "." K1)] [])
    else if q = ⟨"example.", TypeDNSKEY⟩ then
      .ok (reply [.dnskey K2, recApex, .rrsig (sigBy "example." TypeA "example." K2)] [])
    else .error 1, ())

/-- A collaborator for a zone `example.` with the two keys `K2` and `K2c` of
equal key tag, a DS record for each, and a key set signed by `K2`. -/
def netCollision : DNSResolver Unit where
  Query := fun _ q =>
    (if q = ⟨"example.", TypeDS⟩ then
      .ok (reply [recDS, recDSc, .rrsig (sigBy "example." TypeDS "." K1)] [])
    else if q = ⟨"example.", TypeDNSKEY⟩ then
      .ok (reply [.dnskey K2, .dnskey K2c,
                  .rrsig (sigBy "example." TypeDNSKEY "example." K2)] [])
    else .error 1, ())

/-- An answer with an A and a TXT record set, each validly signed by `K2`. -/
def bothSigned : List RR :=
  [recA, .rrsig (sigBy "www.example." TypeA "example." K2),
   recTXT, .rrsig (sigBy "www.example." 16 "example." K2)]

/-- A trust-anchor entry for the root key material, valid from instant 0. -/
def anchor : KeyDigest := ⟨⟨hdr "." TypeDS, 826, 8, 2, "ROOT-KEY"⟩, "Kcurrent", some 0, none⟩

/-- A trust-anchor entry whose window ended at instant 50. -/
def anchorExpired : KeyDigest :=
  ⟨⟨hdr "." TypeDS, 826, 8, 2, "ROOT-KEY"⟩, "Kretired", some 0, some 50⟩

/-- A bootstrap environment at instant 100: both documents are fetched, the
detached signature checks when `signatureOK`, and the document lists the
entries `doc`. -/
def env (doc : List KeyDigest) (signatureOK : Bool) : TrustEnv where
  Get := fun url =>
    if url = URL_ROOT_ANCHORS then .ok ⟨200, .ok "anchors"⟩
    else if url = URL_ROOT_ANCHORS_SIGNATURE then
      .ok ⟨200, .ok (if signatureOK then "p7s:anchors" else "p7s:forged")⟩
    else .ok ⟨404, .ok ""⟩
  pkcs7Parse := fun data => .ok ⟨data, ""⟩
  VerifyWithChain := fun p7 => if p7.Signed = "p7s:" ++ p7.Content then none else some 1
  xmlUnmarshal := fun _ => .ok ⟨"root", "iana", ".", doc⟩
  now := 100

/-- A collaborator that answers the root DNSKEY question with `answer`. -/
def rootNet (answer : List RR) : DNSResolver Unit where
  Query := fun _ q =>
    (if q = ⟨".", TypeDNSKEY⟩ then .ok (reply answer []) else .error 1, ())

/-- The self-signed root key set. -/
def rootAnswer : List RR := [.dnskey K1, .rrsig (sigBy "." TypeDNSKEY "." K1)]

/-- A fetcher with nothing cached. -/
def fresh : RootTrustFetcher Unit := ⟨none, ()⟩

end Example

/-! ## Label count of a name -/

/-- The scan of `dns.NextLabel` continued over the whole name: the number of
label separators (dots that are not escaped) among all bytes but the last;
`bs` is the number of consecutive backslashes right before the head. -/
def countSeparators : List Char → Nat → Nat
  | [], _ => 0
  | [_], _ => 0
  | c :: d :: rest, bs =>
    if c ≠ '.' then countSeparators (d :: rest) (if c = '\\' then bs + 1 else 0)
    else if (bs + 1) % 2 = 0 then countSeparators (d :: rest) 0
    else 1 + countSeparators (d :: rest) 0

/-- Library function `dns.CountLabel`: the root has no label, every other name
one label more than it has separators. -/
def CountLabel (s : String) : Nat :=
  if s = "." then 0 else countSeparators s.data 0 + 1

/-- The number of consecutive backslashes at the end of a scanned prefix that
was entered with `bs` backslashes before it. -/
def runEnd : List Char → Nat → Nat
  | [], bs => bs
  | c :: rest, bs => runEnd rest (if c = '\\' then bs + 1 else 0)

/-! ## tor/tordir/server_descriptors.go -/

namespace Tordir

/-- Go type `ServerDescriptor`. -/
structure ServerDescriptor where
  Nickname : String
  Address : String
  ORPort : Nat
  SOCKSPort : Nat
  DirPort : Nat
  IdentityEd25519 : List Nat
  deriving DecidableEq, Repr

/-- Values of Go type `error` that `Next` returns. -/
inductive DirError where
  /-- The error wrapping `ErrInvalidFormat` for a line of fewer than 6 tokens. -/
  | tokenCount
  /-- The error wrapping `ErrInvalidFormat` for a first token other than `router`. -/
  | notRouter
  /-- The error wrapping `ErrInvalidFormat` for a missing `identity-ed25519` line. -/
  | notIdentity
  /-- The error wrapping `ErrInvalidFormat` for a missing certificate header. -/
  | notCertBegin
  /-- The error wrapping `ErrInvalidFormat` for a payload that is not Base64. -/
  | base64 (code : Nat)
  /-- A syntax error of `strconv.ParseUint`. -/
  | syntaxError
  /-- A range error of `strconv.ParseUint`. -/
  | rangeError
  /-- The non-EOF error of the scanner, `s.Err()`. -/
  | scanner (code : Nat)
  deriving DecidableEq, Repr

/-- The scanner `bufio.Scanner`: the lines still to come, the line `Text()`
returns, the read error that ends the input (`none` for a plain end of file),
and whether `Scan` has already returned false. -/
structure Scanner where
  lines : List String
  text : String
  failure : Option Nat
  stopped : Bool
  deriving DecidableEq, Repr

/-- Method `Scan`. -/
def Scanner.Scan (s : Scanner) : Bool × Scanner :=
  match s.lines with
  | [] => (false, { s with stopped := true, text := "" })
  | line :: rest => (true, { s with lines := rest, text := line })

/-- Method `Err`. -/
def Scanner.Err (s : Scanner) : Option DirError :=
  if s.stopped then s.failure.map DirError.scanner else none

/-- Library function `strings.Split(s, sep)` for a one-byte separator. -/
def splitChars (sep : Char) : List Char → List (List Char)
  | [] => [[]]
  | c :: rest =>
    if c = sep then [] :: splitChars sep rest
    else
      match splitChars sep rest with
      | tok :: toks => (c :: tok) :: toks
      | [] => [[c]]

/-- The call `strings.Split(s, " ")`. -/
def Split (s : String) : List String :=
  (splitChars ' ' s.data).map String.mk

/-- The decimal value of a string of digits, most significant first. -/
def digitsValue (cs : List Char) : Nat :=
  cs.foldl (fun n c => 10 * n + (c.toNat - '0'.toNat)) 0

/-- Go function `parsePort`: `strconv.ParseUint(s, 10, 16)`. -/
def parsePort (s : String) : Except DirError Nat :=
  if s.data = [] then .error .syntaxError
  else if s.data.all (fun c => decide ('0' ≤ c) && decide (c ≤ '9')) then
    if digitsValue s.data > 65535 then .error .rangeError else .ok (digitsValue s.data)
  else .error .syntaxError

/-- The loop of `scanEd25519Cert` that collects the payload up to the footer;
`none` is the end of the input before the footer. -/
def scanPayload : List String → String → Option (String × List String)
  | [], _ => none
  | line :: rest, buf =>
    if line = "-----END ED25519 CERT-----" then some (buf, rest)
    else scanPayload rest (buf ++ line)

/-- Go function `scanEd25519Cert`, with `base64.StdEncoding.DecodeString` as
`decode`; returns `(cert, err)` and the scanner. -/
def scanEd25519Cert (decode : String → Except Nat (List Nat)) (s : Scanner) :
    (List Nat × Option DirError) × Scanner :=
  match s.Scan with
  | (false, s1) => (([], s1.Err), s1)
  | (true, s1) =>
    if s1.text ≠ "-----BEGIN ED25519 CERT-----" then (([], some .notCertBegin), s1)
    else
      match scanPayload s1.lines "" with
      | none =>
        let s2 : Scanner := { s1 with lines := [], text := "", stopped := true }
        (([], s2.Err), s2)
      | some (buf, rest) =>
        let s2 : Scanner := { s1 with lines := rest, text := "-----END ED25519 CERT-----" }
        match decode buf with
        | .error c => (([], some (.base64 c)), s2)
        | .ok cert => ((cert, s2.Err), s2)

/-- The deferred function of `Next`: a nil error is replaced by `r.s.Err()`. -/
def deferred (err : Option DirError) (s : Scanner) : Option DirError :=
  match err with
  | none => s.Err
  | some e => some e

/-- Go method `ServerDescriptorReader.Next`, returning `(desc, err)` and the
scanner; an index beyond the end of `tokens` is a run-time panic. -/
def Next (decode : String → Except Nat (List Nat)) (s : Scanner) :
    Outcome ((Option ServerDescriptor × Option DirError) × Scanner) :=
  match s.Scan with
  | (false, s1) => .ret ((none, deferred none s1), s1)
  | (true, s1) =>
    let tokens := Split s1.text
    if tokens.length < 6 then .ret ((none, deferred (some .tokenCount) s1), s1)
    else
      match tokens.get? 0 with
      | none => .panic
      | some tok0 =>
        if tok0 ≠ "router" then .ret ((none, deferred (some .notRouter) s1), s1)
        else
          match tokens.get? 2, tokens.get? 3 with
          | some nickname, some address =>
            match tokens.get? 4 with
            | none => .panic
            | some tok4 =>
              match parsePort tok4 with
              | .error e => .ret ((none, deferred (some e) s1), s1)
              | .ok orPort =>
                match tokens.get? 5 with
                | none => .panic
                | some tok5 =>
                  match parsePort tok5 with
                  | .error e => .ret ((none, deferred (some e) s1), s1)
                  | .ok socksPort =>
                    match tokens.get? 6 with
                    | none => .panic
                    | some tok6 =>
                      match parsePort tok6 with
                      | .error e => .ret ((none, deferred (some e) s1), s1)
                      | .ok dirPort =>
                        match s1.Scan with
                        | (false, s2) => .ret ((none, deferred none s2), s2)
                        | (true, s2) =>
                          if s2.text ≠ "identity-ed25519" then
                            .ret ((none, deferred (some .notIdentity) s2), s2)
                          else
                            match scanEd25519Cert decode s2 with
                            | ((_, some e), s3) => .ret ((none, deferred (some e) s3), s3)
                            | ((cert, none), s3) =>
                              .ret ((some ⟨nickname, address, orPort, socksPort, dirPort,
                                cert⟩, deferred none s3), s3)
          | _, _ => .panic

end Tordir

namespace Example

/-- A DS record for `K2` with the digest type 3, which `lib.ToDS` does not
support. -/
def recDSUnsupported : RR := .ds ⟨hdr "example." TypeDS, lib.KeyTag K2, 8, 3, "00"⟩

/-- A collaborator whose authenticated DS answer for `example.` names a digest
type the library does not support. -/
def netUnsupported : DNSResolver Unit where
  Query := fun _ q =>
    (if q = ⟨"example.", TypeDS⟩ then
      .ok (reply [recDSUnsupported, .rrsig (sigBy "example." TypeDS "." K1)] [])
    else if q = ⟨"example.", TypeDNSKEY⟩ then
      .ok (reply [.dnskey K2, .rrsig (sigBy "example." TypeDNSKEY "example." K2)] [])
    else .error 1, ())

/-- A trust-anchor entry within its window with the unsupported digest type 3. -/
def anchorUnsupported : KeyDigest :=
  ⟨⟨hdr "." TypeDS, 826, 8, 3, "00"⟩, "Kgost", some 0, none⟩

/-- A scanner over a descriptor whose first line is a six-token router line. -/
def sixTokens : Tordir.Scanner :=
  { lines := ["router nick 192.0.2.7 9001 0 9030", "identity-ed25519",
              "-----BEGIN ED25519 CERT-----", "AQQABhtZ", "-----END ED25519 CERT-----"],
    text := "", failure := none, stopped := false }

/-- The same descriptor with a seventh token on the router line. -/
def sevenTokens : Tordir.Scanner :=
  { sixTokens with
    lines := ["router nick 192.0.2.7 9001 0 9030 80", "identity-ed25519",
              "-----BEGIN ED25519 CERT-----", "AQQABhtZ", "-----END ED25519 CERT-----"] }

/-- A stand-in for the Base64 decoder: the byte values of the text. -/
def decode (buf : String) : Except Nat (List Nat) := .ok (buf.data.map Char.toNat)

end Example

namespace Example

def recSOA : RR :=
  .other (hdr "example." 6) "ns.example. hostmaster.example. 1 7200 3600 1209600 3600"

/-- The authority section a signed zone sends with an empty answer: the NSEC
record and the SOA record, each with its signature by the zone key `K2`. -/
def nodataNs : List RR :=
  [recNSEC, .rrsig (sigBy "www.example." TypeNSEC "example." K2),
   recSOA, .rrsig (sigBy "example." 6 "example." K2)]

/-- The collaborator `net signedA`, except that the DS response for
`www.example.` carries the authority section `nodataNs`. -/
def netNodata : DNSResolver Unit where
  Query := fun _ q =>
    (if q = ⟨"www.example.", TypeDS⟩ then .ok (reply [] nodataNs)
     else ((net signedA).Query () q).1, ())

end Example

/-! ## Basic facts -/

theorem Sched.inOrder_fair : Sched.inOrder.Fair :=
  ⟨fun _ => List.Perm.refl _, fun _ => List.Perm.refl _, fun _ => List.Perm.refl _⟩

namespace GoMap

variable {κ V : Type} [DecidableEq κ]

theorem get_set_same (m : GoMap κ V) (k : κ) (v : V) : (m.set k v).get k = some v := by
  induction m with
  | nil => simp [set, get]
  | cons e rest ih =>
    obtain ⟨k1, v1⟩ := e
    by_cases h : k1 = k <;> simp [set, get, h, ih]

theorem get_set_other (m : GoMap κ V) (k k2 : κ) (v : V) (h : k ≠ k2) :
    (m.set k v).get k2 = m.get k2 := by
  induction m with
  | nil => simp [set, get, h]
  | cons e rest ih =>
    obtain ⟨k1, v1⟩ := e
    by_cases h1 : k1 = k
    · subst h1; simp [set, get, h]
    · by_cases h2 : k1 = k2
      · subst h2; simp [set, get, h1]
      · simp [set, get, h1, h2, ih]

theorem get_delete_same (m : GoMap κ V) (k : κ) : (m.delete k).get k = none := by
  induction m with
  | nil => simp [delete, get]
  | cons e rest ih =>
    obtain ⟨k1, v1⟩ := e
    by_cases h : k1 = k <;> simp [delete, get, h, ih]

theorem get_delete_other (m : GoMap κ V) (k k2 : κ) (h : k ≠ k2) :
    (m.delete k).get k2 = m.get k2 := by
  induction m with
  | nil => simp [delete, get]
  | cons e rest ih =>
    obtain ⟨k1, v1⟩ := e
    by_cases h1 : k1 = k
    · subst h1; simp [delete, get, h, ih]
    · by_cases h2 : k1 = k2
      · subst h2; simp [delete, get, h1]
      · simp [delete, get, h1, h2, ih]

end GoMap

/-! ## Facts about the record verifier -/

namespace GoMap

variable {κ V : Type} [DecidableEq κ]

theorem mem_set_self (m : GoMap κ V) (k : κ) (v : V) : (k, v) ∈ m.set k v := by
  induction m with
  | nil => simp [set]
  | cons e rest ih =>
    obtain ⟨k1, v1⟩ := e
    by_cases h : k1 = k <;> simp [set, h, ih]

theorem mem_set_of_mem (m : GoMap κ V) (k : κ) (v : V) (e : κ × V) (he : e ∈ m)
    (hk : e.1 ≠ k) : e ∈ m.set k v := by
  induction m with
  | nil => simp at he
  | cons e1 rest ih =>
    obtain ⟨k1, v1⟩ := e1
    rcases List.mem_cons.mp he with h | h
    · subst h
      have : ¬ k1 = k := hk
      simp [set, this]
    · by_cases h1 : k1 = k
      · simp [set, h1, h]
      · simp [set, h1, ih h]

theorem mem_of_mem_set (m : GoMap κ V) (k : κ) (v : V) (e : κ × V) (he : e ∈ m.set k v) :
    e = (k, v) ∨ e ∈ m := by
  induction m with
  | nil => simpa [set] using he
  | cons e1 rest ih =>
    obtain ⟨k1, v1⟩ := e1
    by_cases h1 : k1 = k
    · simp only [set, h1, if_true, List.mem_cons] at he
      rcases he with h | h
      · exact Or.inl h
      · exact Or.inr (List.mem_cons_of_mem _ h)
    · simp only [set, h1, if_false, List.mem_cons] at he
      rcases he with h | h
      · exact Or.inr (by simp [h])
      · rcases ih h with h2 | h2
        · exact Or.inl h2
        · exact Or.inr (List.mem_cons_of_mem _ h2)

theorem set_ne_nil (m : GoMap κ V) (k : κ) (v : V) : m.set k v ≠ [] := by
  intro h
  have := mem_set_self m k v
  rw [h] at this
  simp at this

end GoMap

/-- Every entry of the signature map is a signature record of the section, filed
under its own key tag (or was in the map before). -/
theorem collectRRSIGs_mem (rrs : List RR) (m : GoMap Nat RRSIG) (e : Nat × RRSIG)
    (he : e ∈ collectRRSIGs rrs m) :
    e ∈ m ∨ (RR.rrsig e.2 ∈ rrs ∧ e.1 = e.2.KeyTag) := by
  induction rrs generalizing m with
  | nil => exact Or.inl he
  | cons rr rest ih =>
    cases rr with
    | rrsig r =>
      simp only [collectRRSIGs] at he
      rcases ih _ he with h | ⟨h1, h2⟩
      · rcases GoMap.mem_of_mem_set _ _ _ _ h with h3 | h3
        · subst h3; exact Or.inr ⟨by simp, rfl⟩
        · exact Or.inl h3
      · exact Or.inr ⟨List.mem_cons_of_mem _ h1, h2⟩
    | dnskey k =>
      simp only [collectRRSIGs] at he
      rcases ih _ he with h | ⟨h1, h2⟩
      · exact Or.inl h
      · exact Or.inr ⟨List.mem_cons_of_mem _ h1, h2⟩
    | ds d =>
      simp only [collectRRSIGs] at he
      rcases ih _ he with h | ⟨h1, h2⟩
      · exact Or.inl h
      · exact Or.inr ⟨List.mem_cons_of_mem _ h1, h2⟩
    | nsec n =>
      simp only [collectRRSIGs] at he
      rcases ih _ he with h | ⟨h1, h2⟩
      · exact Or.inl h
      · exact Or.inr ⟨List.mem_cons_of_mem _ h1, h2⟩
    | other hd rd =>
      simp only [collectRRSIGs] at he
      rcases ih _ he with h | ⟨h1, h2⟩
      · exact Or.inl h
      · exact Or.inr ⟨List.mem_cons_of_mem _ h1, h2⟩

theorem collectRRSIGs_ne_nil_of_ne_nil (rrs : List RR) (m : GoMap Nat RRSIG) (hm : m ≠ []) :
    collectRRSIGs rrs m ≠ [] := by
  induction rrs generalizing m with
  | nil => exact hm
  | cons rr rest ih =>
    cases rr <;> simp only [collectRRSIGs]
    · exact ih _ (GoMap.set_ne_nil _ _ _)
    all_goals exact ih _ hm

/-- A section with a signature record gives a non-empty signature map. -/
theorem collectRRSIGs_ne_nil (rrs : List RR) (m : GoMap Nat RRSIG) (r : RRSIG)
    (hr : RR.rrsig r ∈ rrs) : collectRRSIGs rrs m ≠ [] := by
  induction rrs generalizing m with
  | nil => simp at hr
  | cons rr rest ih =>
    rcases List.mem_cons.mp hr with h | h
    · subst h
      simp only [collectRRSIGs]
      exact collectRRSIGs_ne_nil_of_ne_nil _ _ (GoMap.set_ne_nil _ _ _)
    · cases rr <;> simp only [collectRRSIGs] <;> exact ih _ h

theorem verifyLoop_cons_skipped (L : Lib) (rrset : List RR) (keys : GoMap Nat DNSKEY)
    (e : Nat × RRSIG) (rest : List (Nat × RRSIG)) (st : Option Error × GoMap Nat (List RR))
    (h : Skipped rrset keys e) :
    verifyLoop L rrset keys (e :: rest) st = verifyLoop L rrset keys rest st := by
  obtain ⟨keytag, rrsig⟩ := e
  obtain ⟨err, signed⟩ := st
  rcases h with h | h
  · simp only at h
    simp only [verifyLoop, h]
    split <;> rfl
  · simp only at h
    simp only [verifyLoop, h]
    split
    · rfl
    · split <;> simp

theorem verifyLoop_all_skipped (L : Lib) (rrset : List RR) (keys : GoMap Nat DNSKEY)
    (vs : List (Nat × RRSIG)) (st : Option Error × GoMap Nat (List RR))
    (h : ∀ e ∈ vs, Skipped rrset keys e) :
    verifyLoop L rrset keys vs st = .ok st := by
  induction vs with
  | nil => rfl
  | cons e rest ih =>
    rw [verifyLoop_cons_skipped L rrset keys e rest st (h e (by simp))]
    exact ih (fun e1 he1 => h e1 (List.mem_cons_of_mem _ he1))

/-- The signature of a section that holds no other signature with its key tag
is in the signature map. -/
theorem collectRRSIGs_keeps (rrs : List RR) (m : GoMap Nat RRSIG) (sig : RRSIG)
    (hm : (sig.KeyTag, sig) ∈ m)
    (hu : ∀ s : RRSIG, RR.rrsig s ∈ rrs → s ≠ sig → s.KeyTag ≠ sig.KeyTag) :
    (sig.KeyTag, sig) ∈ collectRRSIGs rrs m := by
  induction rrs generalizing m with
  | nil => exact hm
  | cons rr rest ih =>
    have hu1 : ∀ s : RRSIG, RR.rrsig s ∈ rest → s ≠ sig → s.KeyTag ≠ sig.KeyTag :=
      fun s hs => hu s (List.mem_cons_of_mem _ hs)
    cases rr with
    | rrsig r =>
      simp only [collectRRSIGs]
      apply ih _ _ hu1
      by_cases h : r = sig
      · subst h; exact GoMap.mem_set_self _ _ _
      · exact GoMap.mem_set_of_mem _ _ _ _ hm (fun h1 => hu r (by simp) h h1.symm)
    | dnskey k => simp only [collectRRSIGs]; exact ih _ hm hu1
    | ds d => simp only [collectRRSIGs]; exact ih _ hm hu1
    | nsec n => simp only [collectRRSIGs]; exact ih _ hm hu1
    | other hd rd => simp only [collectRRSIGs]; exact ih _ hm hu1

theorem collectRRSIGs_mem_of_unique (rrs : List RR) (m : GoMap Nat RRSIG) (sig : RRSIG)
    (hs : RR.rrsig sig ∈ rrs)
    (hu : ∀ s : RRSIG, RR.rrsig s ∈ rrs → s ≠ sig → s.KeyTag ≠ sig.KeyTag) :
    (sig.KeyTag, sig) ∈ collectRRSIGs rrs m := by
  induction rrs generalizing m with
  | nil => simp at hs
  | cons rr rest ih =>
    have hu1 : ∀ s : RRSIG, RR.rrsig s ∈ rest → s ≠ sig → s.KeyTag ≠ sig.KeyTag :=
      fun s hs => hu s (List.mem_cons_of_mem _ hs)
    rcases List.mem_cons.mp hs with h | h
    · subst h
      simp only [collectRRSIGs]
      exact collectRRSIGs_keeps _ _ _ (GoMap.mem_set_self _ _ _) hu1
    · cases rr with
      | rrsig r =>
        simp only [collectRRSIGs]
        exact ih _ h hu1
      | dnskey k => simp only [collectRRSIGs]; exact ih _ h hu1
      | ds d => simp only [collectRRSIGs]; exact ih _ h hu1
      | nsec n => simp only [collectRRSIGs]; exact ih _ h hu1
      | other hd rd => simp only [collectRRSIGs]; exact ih _ h hu1

/-- A signature that covers a type already verified is passed over. -/
theorem verifyLoop_cons_signed (L : Lib) (rrset : List RR) (keys : GoMap Nat DNSKEY)
    (e : Nat × RRSIG) (rest : List (Nat × RRSIG)) (err : Option Error) (sub : List RR)
    (hsub : sub ≠ []) :
    verifyLoop L rrset keys (e :: rest) (err, [(e.2.TypeCovered, sub)])
      = verifyLoop L rrset keys rest (err, [(e.2.TypeCovered, sub)]) := by
  obtain ⟨keytag, rrsig⟩ := e
  have : 0 < sub.length := List.length_pos.mpr hsub
  simp [verifyLoop, GoMap.get, this]

/-- A signature with a trusted key whose check succeeds, nothing verified
before it. -/
theorem verifyLoop_cons_verified (L : Lib) (rrset : List RR) (keys : GoMap Nat DNSKEY)
    (sig : RRSIG) (key : DNSKEY) (rest : List (Nat × RRSIG)) (err : Option Error)
    (hrec : extractRRSet rrset sig.TypeCovered ≠ [])
    (hkey : keys.get sig.KeyTag = some key)
    (hver : L.Verify sig key (extractRRSet rrset sig.TypeCovered) = none) :
    verifyLoop L rrset keys ((sig.KeyTag, sig) :: rest) (err, [])
      = verifyLoop L rrset keys rest
          (Secure, [(sig.TypeCovered, extractRRSet rrset sig.TypeCovered)]) := by
  have : ¬ (extractRRSet rrset sig.TypeCovered).length = 0 := by
    simpa [List.length_eq_zero] using hrec
  simp [verifyLoop, GoMap.get, GoMap.set, hkey, this, hver]

theorem verifyLoop_one_verified (L : Lib) (rrset : List RR) (keys : GoMap Nat DNSKEY)
    (sig : RRSIG) (key : DNSKEY)
    (hrec : extractRRSet rrset sig.TypeCovered ≠ [])
    (hkey : keys.get sig.KeyTag = some key)
    (hver : L.Verify sig key (extractRRSet rrset sig.TypeCovered) = none)
    (vs : List (Nat × RRSIG))
    (hvs : ∀ e ∈ vs, e = (sig.KeyTag, sig) ∨ Skipped rrset keys e) :
    verifyLoop L rrset keys vs
        (Secure, [(sig.TypeCovered, extractRRSet rrset sig.TypeCovered)])
      = .ok (Secure, [(sig.TypeCovered, extractRRSet rrset sig.TypeCovered)])
    ∧ ((sig.KeyTag, sig) ∈ vs → ∀ err, verifyLoop L rrset keys vs (err, [])
      = .ok (Secure, [(sig.TypeCovered, extractRRSet rrset sig.TypeCovered)])) := by
  induction vs with
  | nil => exact ⟨rfl, fun h => by simp at h⟩
  | cons e rest ih =>
    have ih1 := ih (fun e1 he1 => hvs e1 (List.mem_cons_of_mem _ he1))
    rcases hvs e (by simp) with h | h
    · subst h
      refine ⟨?_, fun _ err => ?_⟩
      · have := verifyLoop_cons_signed L rrset keys (sig.KeyTag, sig) rest Secure _ hrec
        simp only at this
        rw [this]; exact ih1.1
      · rw [verifyLoop_cons_verified L rrset keys sig key rest err hrec hkey hver]
        exact ih1.1
    · refine ⟨?_, fun hmem err => ?_⟩
      · rw [verifyLoop_cons_skipped L rrset keys e rest _ h]; exact ih1.1
      · rw [verifyLoop_cons_skipped L rrset keys e rest _ h]
        rcases List.mem_cons.mp hmem with h1 | h1
        · -- the entry is the signature itself and is skipped: impossible
          subst h1
          rcases h with h2 | h2
          · simp only at h2; rw [hkey] at h2; simp at h2
          · exact absurd h2 hrec
        · exact ih1.2 h1 err

/-- Verification of a section that holds one checkable signature and otherwise
only signatures that are passed over. -/
theorem VerifyMsgSignature_covered (L : Lib) (S : Sched) (hS : S.Fair) (msg : Msg)
    (expectedSignerFqdn : String) (keys : Option (GoMap Nat DNSKEY))
    (sig : RRSIG) (key : DNSKEY)
    (hsig : RR.rrsig sig ∈ msg.rrset)
    (hrec : extractRRSet msg.rrset sig.TypeCovered ≠ [])
    (hkey : (keys.getD []).get sig.KeyTag = some key)
    (hver : L.Verify sig key (extractRRSet msg.rrset sig.TypeCovered) = none)
    (hothers : ∀ s : RRSIG, RR.rrsig s ∈ msg.rrset → s ≠ sig →
      s.KeyTag ≠ sig.KeyTag ∧ Skipped msg.rrset (keys.getD []) (s.KeyTag, s)) :
    VerifyMsgSignature L S msg expectedSignerFqdn keys
      = (some (msg.signedWith (extractRRSet msg.rrset sig.TypeCovered)), Secure) := by
  have hmem : (sig.KeyTag, sig) ∈ collectRRSIGs msg.rrset [] :=
    collectRRSIGs_mem_of_unique _ _ _ hsig (fun s hs hne => (hothers s hs hne).1)
  have hvs : ∀ e ∈ S.sigs (collectRRSIGs msg.rrset []),
      e = (sig.KeyTag, sig) ∨ Skipped msg.rrset (keys.getD []) e := by
    intro e he
    have he1 : e ∈ collectRRSIGs msg.rrset [] := (hS.sigs _).subset he
    rcases collectRRSIGs_mem _ _ _ he1 with h | ⟨h1, h2⟩
    · simp at h
    · by_cases h3 : e.2 = sig
      · left
        obtain ⟨k, s⟩ := e
        simp only at h2 h3
        subst h3; subst h2; rfl
      · right
        have := (hothers e.2 h1 h3).2
        rw [← h2] at this
        exact this
  have hloop := (verifyLoop_one_verified L msg.rrset (keys.getD []) sig key hrec hkey hver
    _ hvs).2 ((hS.sigs _).mem_iff.mpr hmem) (some .ErrInsecure)
  have hlen : ¬ (collectRRSIGs msg.rrset []).length = 0 := by
    intro h
    rw [List.length_eq_zero] at h
    rw [h] at hmem
    simp at hmem
  have hsets : S.sets [(sig.TypeCovered, extractRRSet msg.rrset sig.TypeCovered)]
      = [(sig.TypeCovered, extractRRSet msg.rrset sig.TypeCovered)] :=
    List.perm_singleton.mp (hS.sets _)
  simp only [VerifyMsgSignature, hlen, if_false, hloop, hsets]
  by_cases ha : msg.Answer.length > 0
  · simp [Secure, appendSigned, Msg.signedWith, ha]
  · simp [Secure, appendSigned, Msg.signedWith, ha]

/-! ## Facts about the key store and the chain resolver -/

theorem KeyStore.addAll_signingZoneMap (L : Lib) (vs : List (Nat × DNSKEY)) (ks : KeyStore) :
    (KeyStore.addAll L vs ks).signingZoneMap = ks.signingZoneMap := by
  induction vs generalizing ks with
  | nil => rfl
  | cons e rest ih =>
    obtain ⟨k, key⟩ := e
    simp only [KeyStore.addAll]
    rw [ih]
    rfl

/-- After `Add(child, signer, keys)` the alias of `child` is `signer`. -/
theorem KeyStore.Add_alias (L : Lib) (S : Sched) (ks : KeyStore) (child signer : String)
    (keys : Option (GoMap Nat DNSKEY)) :
    (ks.Add L S child signer keys).signingZoneMap.get child = some signer := by
  simp only [KeyStore.Add]
  rw [KeyStore.addAll_signingZoneMap]
  exact GoMap.get_set_same _ _ _

/-- A question sent to the collaborator leaves the key store alone. -/
theorem Resolver.ask_keystore {σ : Type} (D : DNSResolver σ) (r : Resolver σ) (name : String)
    (typ : Nat) : (r.ask D name typ).2.keystore = r.keystore := rfl

/-- A name the key store serves is returned at once, the resolver unchanged. -/
theorem GetVerifiedZoneKeys_hit {σ : Type} (L : Lib) (S : Sched) (D : DNSResolver σ)
    (depth : Nat) (r : Resolver σ) (fqdn : String)
    (hhit : (r.keystore.Get fqdn).2.isSome = true) :
    GetVerifiedZoneKeys L S D (depth + 1) r fqdn
      = .ret (((r.keystore.Get fqdn).1, (r.keystore.Get fqdn).2, none), r) := by
  simp [GetVerifiedZoneKeys, hhit]

/-- The root is never resolved without a key store entry. -/
theorem GetVerifiedZoneKeys_root_miss {σ : Type} (L : Lib) (S : Sched) (D : DNSResolver σ)
    (depth : Nat) (r r1 : Resolver σ) (p : String) (keys : Option (GoMap Nat DNSKEY))
    (hmiss : (r.keystore.Get ".").2 = none) :
    GetVerifiedZoneKeys L S D depth r "." ≠ .ret ((p, keys, none), r1) := by
  cases depth with
  | zero => simp [GetVerifiedZoneKeys]
  | succ d => simp [GetVerifiedZoneKeys, hmiss]

/-- The absence-proof path of `GetVerifiedZoneKeys`. -/
theorem GetVerifiedZoneKeys_alias {σ : Type} (L : Lib) (S : Sched) (D : DNSResolver σ)
    (depth : Nat) (r r1 r2 r3 : Resolver σ) (z p : String)
    (keysP : Option (GoMap Nat DNSKEY)) (keyMsg dsMsg0 dsMsg : Msg)
    (hmiss : (r.keystore.Get z).2 = none) (hroot : z ≠ ".")
    (hparent : GetVerifiedZoneKeys L S D depth r (getParentFQDN z)
      = .ret ((p, keysP, none), r1))
    (hkey : r1.ask D z TypeDNSKEY = (.ok keyMsg, r2))
    (hds : r2.ask D z TypeDS = (.ok dsMsg0, r3))
    (hver : VerifyMsgSignature L S dsMsg0 p keysP = (some dsMsg, none))
    (hempty : dsMsg.Answer = [])
    (hnsec : hasNSECFor L dsMsg.Ns z = true) :
    GetVerifiedZoneKeys L S D (depth + 1) r z
      = .ret ((p, keysP, none), { r3 with keystore := r3.keystore.Add L S z p keysP }) := by
  simp [GetVerifiedZoneKeys, hmiss, hroot, hparent, hkey, hds, hver, hempty, hnsec]

theorem Resolver.ask_ok {σ : Type} (D : DNSResolver σ) (r : Resolver σ) (name : String)
    (typ : Nat) (m : Msg) (h : (D.Query r.net ⟨name, typ⟩).1 = .ok m) :
    r.ask D name typ = (.ok m, (r.ask D name typ).2) := by
  simp [Resolver.ask, h]

/-- The delegation path of `GetVerifiedZoneKeys`. -/
theorem GetVerifiedZoneKeys_delegation {σ : Type} (L : Lib) (S : Sched) (D : DNSResolver σ)
    (depth : Nat) (r r1 r2 r3 : Resolver σ) (z p : String)
    (keysP : Option (GoMap Nat DNSKEY)) (keyMsg dsMsg0 dsMsg keyMsg1 : Msg)
    (zoneKeys : GoMap Nat DNSKEY)
    (hmiss : (r.keystore.Get z).2 = none) (hroot : z ≠ ".")
    (hparent : GetVerifiedZoneKeys L S D depth r (getParentFQDN z)
      = .ret ((p, keysP, none), r1))
    (hkey : r1.ask D z TypeDNSKEY = (.ok keyMsg, r2))
    (hds : r2.ask D z TypeDS = (.ok dsMsg0, r3))
    (hver : VerifyMsgSignature L S dsMsg0 p keysP = (some dsMsg, none))
    (hfull : dsMsg.Answer ≠ [])
    (hmatch : matchZoneKeys L (dsRRMap dsMsg.Answer [])
      (S.keys (dnskeyRRMap L keyMsg.Answer [])) [] = some zoneKeys)
    (hver2 : VerifyMsgSignature L S keyMsg z (some zoneKeys) = (some keyMsg1, none)) :
    GetVerifiedZoneKeys L S D (depth + 1) r z
      = .ret ((z, some (dnskeyRRMap L keyMsg1.Answer zoneKeys), none),
          { r3 with keystore :=
              r3.keystore.Add L S z z (some (dnskeyRRMap L keyMsg1.Answer zoneKeys)) }) := by
  simp [GetVerifiedZoneKeys, hmiss, hroot, hparent, hkey, hds, hver, hfull, hmatch, hver2]

/-- The key store `New` builds from one trust anchor owned by the root. -/
theorem NewKeyStore_single (L : Lib) (S : Sched) (hS : S.Fair) (K1 : DNSKEY)
    (h : Fqdn K1.Hdr.Name = ".") :
    KeyStore.NewKeyStore L S (some [(L.KeyTag K1, K1)])
      = { store := [(".", [(L.KeyTag K1, K1)])], signingZoneMap := [] } := by
  have hk : S.keys [(L.KeyTag K1, K1)] = [(L.KeyTag K1, K1)] :=
    List.perm_singleton.mp (hS.keys _)
  simp [KeyStore.NewKeyStore, hk, KeyStore.addAll, KeyStore.addLocked, h, GoMap.get,
    GoMap.set]

/-- Verification of a two-record section `[rr, sig]` in which `sig` covers the
type of `rr` and checks against a key of the trusted set. -/
theorem VerifyMsgSignature_pair (L : Lib) (S : Sched) (hS : S.Fair) (msg : Msg)
    (expectedSignerFqdn : String) (keys : GoMap Nat DNSKEY) (rr : RR) (sig : RRSIG)
    (key : DNSKEY)
    (hset : msg.rrset = [rr, .rrsig sig])
    (hnot : ∀ s, rr ≠ .rrsig s)
    (hrr : rr.Header.Rrtype = sig.TypeCovered)
    (hsigType : sig.Hdr.Rrtype ≠ sig.TypeCovered)
    (hkey : keys.get sig.KeyTag = some key)
    (hver : L.Verify sig key [rr] = none) :
    VerifyMsgSignature L S msg expectedSignerFqdn (some keys)
      = (some (msg.signedWith [rr]), none) := by
  have hext : extractRRSet msg.rrset sig.TypeCovered = [rr] := by
    have h1 : (RR.rrsig sig).Header.Rrtype ≠ sig.TypeCovered := hsigType
    simp [hset, extractRRSet, List.filter, hrr, h1]
  have := VerifyMsgSignature_covered L S hS msg expectedSignerFqdn (some keys) sig key
    (by simp [hset]) (by simp [hext]) (by simpa using hkey) (by rw [hext]; exact hver)
    (by
      intro s hs hne
      rw [hset] at hs
      simp only [List.mem_cons, RR.rrsig.injEq, List.mem_singleton, List.not_mem_nil,
        or_false] at hs
      rcases hs with h | h
      · exact absurd h.symm (hnot s)
      · exact absurd h hne)
  rw [hext] at this
  exact this

/-! ## Claims -/

/-- C1 (code evaluated at the failing input).  The collaborator answers the
question `(www.example., A)` with the signed A record followed by an AAAA record
that no signature covers.  `Resolver.Query` succeeds (nil error) and hands back
the response of the collaborator as it came, forged record included, although
`VerifyMsgSignature` on that response with the resolved keys of `example.`
produces the filtered message that holds the A record only. -/
theorem C1_query_forwards_unverified_records :
    (Resolver.Query Example.lib Sched.inOrder (Example.net Example.forgedA) 3
        Example.start "www.example." TypeA).result
      = some (some (Example.reply Example.forgedA []), none)
    ∧ VerifyMsgSignature Example.lib Sched.inOrder (Example.reply Example.forgedA [])
        "example." (some [(1122, Example.K2)])
      = (some (Example.reply [Example.recA] []), none)
    ∧ Example.recForged ∈ Example.forgedA := by
  refine ⟨by decide, by decide, by decide⟩

/-- C2 (code evaluated at two failing inputs).  The key tag of the signature is
in the trusted key set, the covered type A is present, and the cryptographic
check fails.  First input, one corrupted signature: the verifier returns the
error value of the library check, which is not `ErrBogus`.  Second input, the
corrupted signature followed by a good one with the same key tag: the later
record replaces the earlier one in the map keyed by key tag, the corrupted
signature is never checked and the result is `Secure` with a message. -/
theorem C2_failed_check_is_not_bogus :
    VerifyMsgSignature Example.lib Sched.inOrder
        (Example.reply [Example.recA,
          .rrsig (Example.badSigBy "www.example." TypeA "example." Example.K2)] [])
        "example." (some [(1122, Example.K2)])
      = (none, some (.verify 1))
    ∧ Example.lib.Verify (Example.badSigBy "www.example." TypeA "example." Example.K2)
        Example.K2 [Example.recA] = some 1
    ∧ VerifyMsgSignature Example.lib Sched.inOrder
        (Example.reply [Example.recA,
          .rrsig (Example.badSigBy "www.example." TypeA "example." Example.K2),
          .rrsig (Example.sigBy "www.example." TypeA "example." Example.K2)] [])
        "example." (some [(1122, Example.K2)])
      = (some (Example.reply [Example.recA] []), Secure) := by
  refine ⟨by decide, by decide, by decide⟩

/-- C3 (counterexample).  The answer holds the A record with exactly one
signature covering A, by the trusted key `K2`, whose check succeeds; it also
holds a TXT record with a corrupted signature by the trusted key `K3`.  In
both visiting orders of the two signatures `VerifyMsgSignature` returns the
error of the failed check and no message, not `Secure`. -/
theorem C3_counterexample :
    Example.mixedA.filter (fun rr => match rr with
        | .rrsig s => decide (s.TypeCovered = TypeA)
        | _ => false)
      = [.rrsig (Example.sigBy "www.example." TypeA "example." Example.K2)]
    ∧ extractRRSet Example.mixedA TypeA = [Example.recA]
    ∧ GoMap.get [(1122, Example.K2), (1137, Example.K3)]
        (Example.sigBy "www.example." TypeA "example." Example.K2).KeyTag = some Example.K2
    ∧ Example.lib.Verify (Example.sigBy "www.example." TypeA "example." Example.K2)
        Example.K2 [Example.recA] = none
    ∧ VerifyMsgSignature Example.lib Sched.inOrder (Example.reply Example.mixedA [])
        "example." (some [(1122, Example.K2), (1137, Example.K3)])
      = (none, some (.verify 1))
    ∧ VerifyMsgSignature Example.lib Sched.reversed (Example.reply Example.mixedA [])
        "example." (some [(1122, Example.K2), (1137, Example.K3)])
      = (none, some (.verify 1)) := by
  refine ⟨by decide, by decide, by decide, by decide, by decide, by decide⟩

/-- C3 (amended).  The answer holds a signature record `sig` whose key tag is in
the trusted key set, at least one record of the type `sig` covers, and the
check of `sig` against that key over those records succeeds.  Every other
signature record of the answer has a key tag different from that of `sig` and
either a key tag outside the trusted key set or a covered type with no record
in the answer.  Then, in every visiting order, `VerifyMsgSignature` returns
`Secure` and a message whose answer is exactly the records of the covered type
of the input answer, in input order. -/
theorem C3_single_checked_signature_is_secure (L : Lib) (S : Sched) (hS : S.Fair)
    (msg : Msg) (expectedSignerFqdn : String) (keys : Option (GoMap Nat DNSKEY))
    (sig : RRSIG) (key : DNSKEY)
    (hsig : RR.rrsig sig ∈ msg.Answer)
    (hrec : extractRRSet msg.Answer sig.TypeCovered ≠ [])
    (hkey : (keys.getD []).get sig.KeyTag = some key)
    (hver : L.Verify sig key (extractRRSet msg.Answer sig.TypeCovered) = none)
    (hothers : ∀ s : RRSIG, RR.rrsig s ∈ msg.Answer → s ≠ sig →
      s.KeyTag ≠ sig.KeyTag ∧
        ((keys.getD []).get s.KeyTag = none ∨ extractRRSet msg.Answer s.TypeCovered = [])) :
    ∃ signedMsg : Msg,
      VerifyMsgSignature L S msg expectedSignerFqdn keys = (some signedMsg, Secure)
      ∧ signedMsg.Answer = msg.Answer.filter (fun rr => rr.Header.Rrtype = sig.TypeCovered) := by
  have ha : msg.Answer.length > 0 := List.length_pos_of_mem hsig
  have hset : msg.rrset = msg.Answer := by simp [Msg.rrset, ha]
  refine ⟨msg.signedWith (extractRRSet msg.Answer sig.TypeCovered), ?_, ?_⟩
  · have := VerifyMsgSignature_covered L S hS msg expectedSignerFqdn keys sig key
      (by rw [hset]; exact hsig) (by rw [hset]; exact hrec) hkey (by rw [hset]; exact hver)
      (by rw [hset]; exact hothers)
    rw [hset] at this
    exact this
  · simp [Msg.signedWith, ha, extractRRSet]

/-- Witness for C3 (amended): the signed A answer of `www.example.` against the
key set of `example.`. -/
theorem C3_single_checked_signature_is_secure_witness :
    ∃ signedMsg : Msg,
      VerifyMsgSignature Example.lib Sched.inOrder (Example.reply Example.signedA [])
        "example." (some [(1122, Example.K2)]) = (some signedMsg, Secure)
      ∧ signedMsg.Answer
        = (Example.reply Example.signedA []).Answer.filter (fun rr => rr.Header.Rrtype
            = (Example.sigBy "www.example." TypeA "example." Example.K2).TypeCovered) :=
  C3_single_checked_signature_is_secure Example.lib Sched.inOrder Sched.inOrder_fair
    (Example.reply Example.signedA []) "example." (some [(1122, Example.K2)])
    (Example.sigBy "www.example." TypeA "example." Example.K2) Example.K2
    (by decide) (by decide) (by decide) (by decide)
    (by
      intro s hs hne
      have h : s = Example.sigBy "www.example." TypeA "example." Example.K2 := by
        simpa [Example.reply, Example.signedA, Example.recA] using hs
      exact absurd h hne)

/-- C4.  If the authenticated section holds at least one signature record and
the trusted key set holds the key tag of none of its signature records, then
`VerifyMsgSignature` returns `ErrInsecure` and no message, whatever the order in
which the signatures are visited. -/
theorem C4_no_matching_key_tag_is_insecure (L : Lib) (S : Sched) (hS : S.Fair)
    (msg : Msg) (expectedSignerFqdn : String) (keys : Option (GoMap Nat DNSKEY))
    (r : RRSIG) (hr : RR.rrsig r ∈ msg.rrset)
    (hnone : ∀ s : RRSIG, RR.rrsig s ∈ msg.rrset → (keys.getD []).get s.KeyTag = none) :
    VerifyMsgSignature L S msg expectedSignerFqdn keys = (none, some .ErrInsecure) := by
  have hne : collectRRSIGs msg.rrset [] ≠ [] := collectRRSIGs_ne_nil _ _ r hr
  have hskip : ∀ e ∈ S.sigs (collectRRSIGs msg.rrset []),
      Skipped msg.rrset (keys.getD []) e := by
    intro e he
    have he1 : e ∈ collectRRSIGs msg.rrset [] := (hS.sigs _).subset he
    rcases collectRRSIGs_mem _ _ _ he1 with h | ⟨h1, h2⟩
    · simp at h
    · left
      rw [h2]
      exact hnone _ h1
  have hloop := verifyLoop_all_skipped L msg.rrset (keys.getD [])
    (S.sigs (collectRRSIGs msg.rrset [])) (some .ErrInsecure, []) hskip
  have hlen : ¬ (collectRRSIGs msg.rrset []).length = 0 := by
    simpa [List.length_eq_zero] using hne
  simp only [VerifyMsgSignature, hlen, if_false, hloop]
  simp [Secure]

/-- Witness for C4: a signed A answer checked against a key set that holds only
the root key. -/
theorem C4_no_matching_key_tag_is_insecure_witness :
    VerifyMsgSignature Example.lib Sched.inOrder (Example.reply Example.signedA [])
      "." (some [(826, Example.K1)]) = (none, some .ErrInsecure) :=
  C4_no_matching_key_tag_is_insecure Example.lib Sched.inOrder Sched.inOrder_fair
    (Example.reply Example.signedA []) "." (some [(826, Example.K1)])
    (Example.sigBy "www.example." TypeA "example." Example.K2) (by decide)
    (by
      intro s hs
      have h : s = Example.sigBy "www.example." TypeA "example." Example.K2 := by
        simpa [Msg.rrset, Example.reply, Example.signedA, Example.recA] using hs
      subst h
      decide)

/-- C5 (code evaluated at the failing input).  The resolver has the root key `K1`
as its trust anchor; the DS response of `example.` is signed by `K1` and matches
the zone-flagged key `K2`, which signs the DNSKEY response; the A response for
`www.example.` carries the A record and a valid signature by `K2`.  The DS
response of `www.example.` has an empty answer and, in its authority section,
the NSEC record owned by `www.example.` with its signature by `K2`, followed by
the SOA record of the zone with its signature by `K2`.  Every signature checks.
The two signatures of the authority section carry the same key tag, so the map
keyed by key tag keeps the one over SOA, the NSEC record does not survive the
authentication, and `Query("www.example.", A)` returns `ErrBogus`, in either
visiting order.  With the NSEC record and its signature alone in the authority
section the same call returns a nil error. -/
theorem C5_signed_chain_with_soa_is_bogus :
    (Resolver.Query Example.lib Sched.inOrder Example.netNodata 3 Example.start
        "www.example." TypeA).result
      = some (some (Example.reply Example.signedA []), some .ErrBogus)
    ∧ (Resolver.Query Example.lib Sched.reversed Example.netNodata 3 Example.start
        "www.example." TypeA).result
      = some (some (Example.reply Example.signedA []), some .ErrBogus)
    ∧ (Example.netNodata.Query () ⟨"www.example.", TypeDS⟩).1
      = .ok (Example.reply [] Example.nodataNs)
    ∧ Example.recNSEC ∈ Example.nodataNs
    ∧ hasNSECFor Example.lib Example.nodataNs "www.example." = true
    ∧ Example.lib.Verify (Example.sigBy "www.example." TypeNSEC "example." Example.K2)
        Example.K2 [Example.recNSEC] = none
    ∧ Example.lib.Verify (Example.sigBy "example." 6 "example." Example.K2)
        Example.K2 [Example.recSOA] = none
    ∧ VerifyMsgSignature Example.lib Sched.inOrder (Example.reply [] Example.nodataNs)
        "example." (some [(1122, Example.K2)])
      = (some (Example.reply [] [Example.recSOA]), Secure)
    ∧ (Resolver.Query Example.lib Sched.inOrder (Example.net Example.signedA) 3
        Example.start "www.example." TypeA).result
      = some (some (Example.reply Example.signedA []), Secure) := by
  refine ⟨by decide, by decide, rfl, by decide, by decide, by decide, by decide, by decide,
    by decide⟩

/-- C6 (code evaluated at the failing input).  On the empty store,
`Add("www.example.", "example.", {K2})` files `K2` under its owner `example.`
and records the alias; `Get("www.example.")` then reads the key entry of
`www.example.` itself, not that of the alias, and returns the signer with no
key set. -/
theorem C6_get_after_add_returns_no_keys :
    (KeyStore.Add Example.lib Sched.inOrder { store := [], signingZoneMap := [] }
        "www.example." "example." (some [(1122, Example.K2)])).Get "www.example."
      = ("example.", none)
    ∧ (KeyStore.Add Example.lib Sched.inOrder { store := [], signingZoneMap := [] }
        "www.example." "example." (some [(1122, Example.K2)])).store
      = [("example.", [(1122, Example.K2)])] := by
  refine ⟨by decide, by decide⟩

/-- C7 (counterexample).  `example.` and `www.example.` both alias to the
signing zone `example.`.  After `SetEmptyZone("www.example.")` the lookup of the
other name `example.` still returns the signing-zone name `example.`: its
result is not the empty one. -/
theorem C7_counterexample :
    (Example.twoAliases.Get "www.example.").1 = "example."
    ∧ (Example.twoAliases.Get "example.").1 = "example."
    ∧ (Example.twoAliases.SetEmptyZone "www.example.").Get "example." = ("example.", none)
    ∧ (Example.twoAliases.SetEmptyZone "www.example.").Get "example." ≠ ("", none) := by
  refine ⟨by decide, by decide, by decide, by decide⟩

/-- C7 (amended).  After `SetEmptyZone(z)`, with `s` the signing zone that `z`
aliased to before the call (the empty name when it had no alias): `Get` returns
the empty signing-zone name for `z` and the unchanged signing-zone name for
every other name, and the store holds no key entry for `s` and the unchanged
key entry for every other zone. -/
theorem C7_set_empty_zone_removes_alias_and_entry (ks : KeyStore) (z y : String) :
    ((ks.SetEmptyZone z).Get y).1 = (if y = z then "" else (ks.Get y).1)
    ∧ (ks.SetEmptyZone z).store.get y
        = (if y = (ks.Get z).1 then none else ks.store.get y) := by
  constructor
  · by_cases h : y = z
    · subst h
      simp [KeyStore.SetEmptyZone, KeyStore.Get, GoMap.get_delete_same]
    · have h1 : z ≠ y := fun h1 => h h1.symm
      simp [KeyStore.SetEmptyZone, KeyStore.Get, GoMap.get_delete_other _ _ _ h1, h]
  · by_cases h : y = (ks.Get z).1
    · rw [if_pos h, h]
      simp [KeyStore.SetEmptyZone, KeyStore.Get, GoMap.get_delete_same]
    · have h1 : (ks.Get z).1 ≠ y := fun h1 => h h1.symm
      rw [if_neg h]
      simp only [KeyStore.SetEmptyZone]
      exact GoMap.get_delete_other _ _ _ h1



/-- C8 (code evaluated at the failing input).  In the signed chain of C5 the
first `Query("www.example.", A)` succeeds and sends five questions.  The key
store then holds the alias of `www.example.`, yet `Get("www.example.")` returns
no key set, so the same call issued again succeeds with the same message and
sends the DNSKEY and the DS question for `www.example.` a second time. -/
theorem C8_second_query_repeats_subqueries :
    Example.firstRun.result = some (some (Example.reply Example.signedA []), none)
    ∧ Example.firstRun.final.map (fun r => r.sent)
        = some [⟨"www.example.", TypeA⟩, ⟨"example.", TypeDNSKEY⟩, ⟨"example.", TypeDS⟩,
                ⟨"www.example.", TypeDNSKEY⟩, ⟨"www.example.", TypeDS⟩]
    ∧ Example.firstRun.final.map (fun r => r.keystore.Get "www.example.")
        = some ("example.", none)
    ∧ Example.secondRun.result = some (some (Example.reply Example.signedA []), none)
    ∧ Example.secondRun.final.map (fun r => r.sent.drop 5)
        = some [⟨"www.example.", TypeA⟩, ⟨"www.example.", TypeDNSKEY⟩,
                ⟨"www.example.", TypeDS⟩] := by
  refine ⟨by decide, by decide, by decide, by decide, by decide⟩

/-- C9.  Let `z` miss the key store, let the recursive call on the parent of `z`
return `(p, keysP)` without error, and let both sub-queries for `z` be answered.
If `VerifyMsgSignature` accepts the DS response against `keysP`, the
authenticated message has an empty answer and its authority section holds an
NSEC record whose owner equals `z` under `strings.EqualFold`, then
`GetVerifiedZoneKeys(z)` returns `(p, keysP)` with a nil error, and in the key
store afterwards the alias of `z` is `p`. -/
theorem C9_absence_proof_aliases_to_parent {σ : Type} (L : Lib) (S : Sched)
    (D : DNSResolver σ) (depth : Nat) (r r1 r2 r3 : Resolver σ) (z p : String)
    (keysP : Option (GoMap Nat DNSKEY)) (keyMsg dsMsg0 dsMsg : Msg) (n : NSEC)
    (hmiss : (r.keystore.Get z).2 = none)
    (hparent : GetVerifiedZoneKeys L S D depth r (getParentFQDN z)
      = .ret ((p, keysP, none), r1))
    (hkey : r1.ask D z TypeDNSKEY = (.ok keyMsg, r2))
    (hds : r2.ask D z TypeDS = (.ok dsMsg0, r3))
    (hver : VerifyMsgSignature L S dsMsg0 p keysP = (some dsMsg, none))
    (hempty : dsMsg.Answer = [])
    (hn : RR.nsec n ∈ dsMsg.Ns) (hname : L.EqualFold n.Hdr.Name z = true) :
    ∃ r4 : Resolver σ,
      GetVerifiedZoneKeys L S D (depth + 1) r z = .ret ((p, keysP, none), r4)
      ∧ r4.keystore.signingZoneMap.get z = some p
      ∧ (r4.keystore.Get z).1 = p := by
  have hroot : z ≠ "." := by
    intro h
    subst h
    have h1 : getParentFQDN "." = "." := by decide
    rw [h1] at hparent
    exact GetVerifiedZoneKeys_root_miss L S D depth r r1 p keysP hmiss hparent
  have hnsec : hasNSECFor L dsMsg.Ns z = true := by
    simp only [hasNSECFor, List.any_eq_true]
    exact ⟨RR.nsec n, hn, hname⟩
  refine ⟨_, GetVerifiedZoneKeys_alias L S D depth r r1 r2 r3 z p keysP keyMsg dsMsg0 dsMsg
    hmiss hroot hparent hkey hds hver hempty hnsec, ?_, ?_⟩
  · exact KeyStore.Add_alias L S _ z p keysP
  · simp [KeyStore.Get, KeyStore.Add_alias L S _ z p keysP]

/-- Witness for C9: `www.example.` in the signed chain, resolved from the fresh
resolver. -/
theorem C9_absence_proof_aliases_to_parent_witness :
    ∃ r4 : Resolver Unit,
      GetVerifiedZoneKeys Example.lib Sched.inOrder (Example.net Example.signedA) (2 + 1)
          Example.start "www.example."
        = .ret (("example.", some [(1122, Example.K2)], none), r4)
      ∧ r4.keystore.signingZoneMap.get "www.example." = some "example."
      ∧ (r4.keystore.Get "www.example.").1 = "example." :=
  C9_absence_proof_aliases_to_parent Example.lib Sched.inOrder
    (Example.net Example.signedA) 2 Example.start Example.afterExample
    (Example.afterExample.ask (Example.net Example.signedA) "www.example." TypeDNSKEY).2
    ((Example.afterExample.ask (Example.net Example.signedA) "www.example."
      TypeDNSKEY).2.ask (Example.net Example.signedA) "www.example." TypeDS).2
    "www.example." "example." (some [(1122, Example.K2)])
    (Example.reply [] []) Example.chain.mWDS (Example.reply [] [Example.recNSEC])
    Example.chain.nsec
    (by decide) rfl rfl rfl (by decide) rfl (by decide) (by decide)

/-- C10.  Let the parent of `z` be served from the key store.  If
`GetVerifiedZoneKeys(z)` returns with an error, whichever it is, the key store
after the call is the key store before the call. -/
theorem C10_failure_leaves_key_store_unchanged {σ : Type} (L : Lib) (S : Sched)
    (D : DNSResolver σ) (depth : Nat) (r r1 : Resolver σ) (z a : String)
    (b : Option (GoMap Nat DNSKEY)) (e : Error)
    (hparent : (r.keystore.Get (getParentFQDN z)).2.isSome = true)
    (hrun : GetVerifiedZoneKeys L S D depth r z = .ret ((a, b, some e), r1)) :
    r1.keystore = r.keystore := by
  cases depth with
  | zero => simp [GetVerifiedZoneKeys] at hrun
  | succ d =>
    cases d with
    | zero =>
      simp only [GetVerifiedZoneKeys] at hrun
      split at hrun
      · simp at hrun
      · split at hrun
        · simp only [Outcome.ret.injEq, Prod.mk.injEq] at hrun
          rw [← hrun.2]
        · simp at hrun
    | succ d1 =>
      rw [GetVerifiedZoneKeys] at hrun
      rw [GetVerifiedZoneKeys_hit L S D d1 r _ hparent] at hrun
      simp only at hrun
      split at hrun
      · simp at hrun
      · split at hrun
        · simp only [Outcome.ret.injEq, Prod.mk.injEq] at hrun
          rw [← hrun.2]
        · split at hrun
          · simp only [Outcome.ret.injEq, Prod.mk.injEq] at hrun
            rename_i h
            rw [← hrun.2, ← Resolver.ask_keystore D r z TypeDNSKEY, h]
          · rename_i keyMsg r2 h2
            have hk2 : r2.keystore = r.keystore := by
              rw [← Resolver.ask_keystore D r z TypeDNSKEY, h2]
            split at hrun
            · simp only [Outcome.ret.injEq, Prod.mk.injEq] at hrun
              rename_i h
              rw [← hrun.2, ← hk2, ← Resolver.ask_keystore D r2 z TypeDS, h]
            · rename_i dsMsg0 r3 h3
              have hk3 : r3.keystore = r.keystore := by
                rw [← hk2, ← Resolver.ask_keystore D r2 z TypeDS, h3]
              split at hrun
              · simp only [Outcome.ret.injEq, Prod.mk.injEq] at hrun
                rw [← hrun.2]; exact hk3
              · simp at hrun
              · split at hrun
                · split at hrun
                  · simp at hrun
                  · simp only [Outcome.ret.injEq, Prod.mk.injEq] at hrun
                    rw [← hrun.2]; exact hk3
                · split at hrun
                  · simp at hrun
                  · split at hrun
                    · simp only [Outcome.ret.injEq, Prod.mk.injEq] at hrun
                      rw [← hrun.2]; exact hk3
                    · simp at hrun
                    · simp at hrun

/-- Witness for C10: `mail.example.` on a resolver that already serves
`example.`; the collaborator fails on the DNSKEY question. -/
theorem C10_failure_leaves_key_store_unchanged_witness :
    ({ Example.cached with sent := [⟨"mail.example.", TypeDNSKEY⟩] } : Resolver Unit).keystore
      = Example.cached.keystore :=
  C10_failure_leaves_key_store_unchanged Example.lib Sched.inOrder
    (Example.net Example.signedA) 2 Example.cached
    { Example.cached with sent := [⟨"mail.example.", TypeDNSKEY⟩] }
    "mail.example." "" none (.transport 1) (by decide) rfl

/-! ## Facts about the key store contents and the bootstrap -/

theorem KeyStore.has_addLocked (L : Lib) (ks : KeyStore) (key : DNSKEY) (zone : String)
    (tag : Nat) (h : ks.has zone tag = true) : (ks.addLocked L key).has zone tag = true := by
  unfold KeyStore.has at h ⊢
  simp only [KeyStore.addLocked]
  by_cases hz : Fqdn key.Hdr.Name = zone
  · subst hz
    rw [GoMap.get_set_same]
    cases hs : ks.store.get (Fqdn key.Hdr.Name) with
    | none => rw [hs] at h; simp at h
    | some keys =>
      rw [hs] at h
      simp only [Option.getD_some]
      by_cases ht : L.KeyTag key = tag
      · subst ht; rw [GoMap.get_set_same]; rfl
      · rw [GoMap.get_set_other _ _ _ _ ht]; exact h
  · rw [GoMap.get_set_other _ _ _ _ hz]; exact h

theorem KeyStore.has_addLocked_self (L : Lib) (ks : KeyStore) (key : DNSKEY) :
    (ks.addLocked L key).has (Fqdn key.Hdr.Name) (L.KeyTag key) = true := by
  unfold KeyStore.has
  simp only [KeyStore.addLocked]
  rw [GoMap.get_set_same]
  simp only
  rw [GoMap.get_set_same]
  rfl

theorem KeyStore.has_addAll (L : Lib) (vs : List (Nat × DNSKEY)) (ks : KeyStore)
    (zone : String) (tag : Nat) (h : ks.has zone tag = true) :
    (KeyStore.addAll L vs ks).has zone tag = true := by
  induction vs generalizing ks with
  | nil => exact h
  | cons e rest ih =>
    obtain ⟨t, key⟩ := e
    simp only [KeyStore.addAll]
    exact ih _ (KeyStore.has_addLocked L ks key zone tag h)

theorem KeyStore.has_addAll_mem (L : Lib) (vs : List (Nat × DNSKEY)) (ks : KeyStore)
    (e : Nat × DNSKEY) (he : e ∈ vs) :
    (KeyStore.addAll L vs ks).has (Fqdn e.2.Hdr.Name) (L.KeyTag e.2) = true := by
  induction vs generalizing ks with
  | nil => simp at he
  | cons e1 rest ih =>
    obtain ⟨t, key⟩ := e1
    simp only [KeyStore.addAll]
    rcases List.mem_cons.mp he with h | h
    · subst h
      exact KeyStore.has_addAll L rest _ _ _ (KeyStore.has_addLocked_self L ks key)
    · exact ih _ h

theorem KeyStore.has_set_alias (ks : KeyStore) (child signer zone : String) (tag : Nat) :
    KeyStore.has { ks with signingZoneMap := ks.signingZoneMap.set child signer } zone tag
      = ks.has zone tag := rfl

theorem collectRRSIGs_nil (rrs : List RR) (h : ∀ s : RRSIG, RR.rrsig s ∉ rrs) :
    collectRRSIGs rrs [] = [] := by
  induction rrs with
  | nil => rfl
  | cons rr rest ih =>
    have h1 : ∀ s : RRSIG, RR.rrsig s ∉ rest :=
      fun s hs => h s (List.mem_cons_of_mem _ hs)
    cases rr with
    | rrsig r => exact absurd (List.mem_cons_self _ _) (h r)
    | dnskey k => simp only [collectRRSIGs]; exact ih h1
    | ds d => simp only [collectRRSIGs]; exact ih h1
    | nsec n => simp only [collectRRSIGs]; exact ih h1
    | other hd rd => simp only [collectRRSIGs]; exact ih h1

theorem hasNSECFor_false (L : Lib) (ns : List RR) (z : String)
    (h : ∀ n : NSEC, RR.nsec n ∈ ns → L.EqualFold n.Hdr.Name z = false) :
    hasNSECFor L ns z = false := by
  simp only [hasNSECFor, List.any_eq_false]
  intro rr hrr
  cases rr with
  | nsec n => simp [h n hrr]
  | _ => simp

theorem KeyDigest.Verify_outside (now : Int) (kd : KeyDigest)
    (hout : (∃ u, kd.ValidUntil = some u ∧ u < now) ∨ (∃ f, kd.ValidFrom = some f ∧ now < f)) :
    kd.Verify now ≠ none := by
  unfold KeyDigest.Verify
  cases hf : kd.ValidFrom with
  | none => simp
  | some f =>
    rcases hout with ⟨u, hu1, hu2⟩ | ⟨f1, hf1, hf2⟩
    · simp [hu1, hu2]
    · rw [hf] at hf1
      cases hf1
      simp [hf2]

theorem trustKeyDigests_filter (now : Int) (kds : List KeyDigest) (m : GoMap Nat KeyDigest) :
    trustKeyDigests now (kds.filter (fun kd => (kd.Verify now).isNone)) m
      = trustKeyDigests now kds m := by
  induction kds generalizing m with
  | nil => rfl
  | cons kd rest ih =>
    cases h : kd.Verify now with
    | none => simp [List.filter, h, trustKeyDigests, ih]
    | some e => simp [List.filter, h, trustKeyDigests, ih]

theorem trustKeyDigests_mem (now : Int) (kds : List KeyDigest) (m : GoMap Nat KeyDigest)
    (e : Nat × KeyDigest) (he : e ∈ trustKeyDigests now kds m) :
    e ∈ m ∨ (e.2 ∈ kds ∧ e.2.Verify now = none) := by
  induction kds generalizing m with
  | nil => exact Or.inl he
  | cons kd rest ih =>
    cases h : kd.Verify now with
    | some err =>
      simp only [trustKeyDigests, h] at he
      rcases ih _ he with h1 | ⟨h1, h2⟩
      · exact Or.inl h1
      · exact Or.inr ⟨List.mem_cons_of_mem _ h1, h2⟩
    | none =>
      simp only [trustKeyDigests, h] at he
      rcases ih _ he with h1 | ⟨h1, h2⟩
      · rcases GoMap.mem_of_mem_set _ _ _ _ h1 with h3 | h3
        · subst h3; exact Or.inr ⟨by simp, h⟩
        · exact Or.inl h3
      · exact Or.inr ⟨List.mem_cons_of_mem _ h1, h2⟩

/-- The bootstrap does not see the entries `KeyDigest.Verify` rejects. -/
theorem FetchVerifyRootKeys_dropRejected {σ : Type} (L : Lib) (S : Sched) (E : TrustEnv)
    (D : DNSResolver σ) (rtf : RootTrustFetcher σ) :
    FetchVerifyRootKeys L S E.dropRejected D rtf = FetchVerifyRootKeys L S E D rtf := by
  have hf : ∀ url, fetchURL E.dropRejected url = fetchURL E url := fun _ => rfl
  have hp : E.dropRejected.pkcs7Parse = E.pkcs7Parse := rfl
  have hv : E.dropRejected.VerifyWithChain = E.VerifyWithChain := rfl
  have hn : E.dropRejected.now = E.now := rfl
  have hx : ∀ data, E.dropRejected.xmlUnmarshal data
      = (match E.xmlUnmarshal data with
        | .error c => .error c
        | .ok trustAnchors =>
          .ok { trustAnchors with
            KeyDigest := trustAnchors.KeyDigest.filter
              (fun keyDigest => (keyDigest.Verify E.now).isNone) }) := fun _ => rfl
  simp only [FetchVerifyRootKeys, hf, hp, hv, hn, hx]
  split
  · rfl
  · split
    · rfl
    · split
      · rfl
      · split
        · rfl
        · split
          · rfl
          · rename_i xml _ _ _ _ _ _ _ _ _
            cases hxml : E.xmlUnmarshal xml with
            | error c => simp [hxml]
            | ok ta => simp [hxml, trustKeyDigests_filter]

/-- A call that returns an error leaves `cachedRootKeys` as it was. -/
theorem FetchVerifyRootKeys_error_cache {σ : Type} (L : Lib) (S : Sched) (E : TrustEnv)
    (D : DNSResolver σ) (rtf rtf1 : RootTrustFetcher σ) (keys : Option (GoMap Nat DNSKEY))
    (e : TrustError)
    (hrun : FetchVerifyRootKeys L S E D rtf = .ret ((keys, some e), rtf1)) :
    rtf1.cachedRootKeys = rtf.cachedRootKeys := by
  simp only [FetchVerifyRootKeys] at hrun
  repeat' split at hrun
  all_goals first
    | (exfalso; simp at hrun; done)
    | (simp only [Outcome.ret.injEq, Prod.mk.injEq] at hrun; rw [← hrun.2])

/-- Only a call that returns a nil error writes `cachedRootKeys`. -/
theorem FetchVerifyRootKeys_cache {σ : Type} (L : Lib) (S : Sched) (E : TrustEnv)
    (D : DNSResolver σ) (rtf : RootTrustFetcher σ) :
    rtf.cacheKept (FetchVerifyRootKeys L S E D rtf) := by
  cases h : FetchVerifyRootKeys L S E D rtf with
  | panic => trivial
  | diverge => trivial
  | ret a =>
    obtain ⟨⟨keys, err⟩, rtf1⟩ := a
    cases err with
    | none => exact Or.inl rfl
    | some e => exact Or.inr (FetchVerifyRootKeys_error_cache L S E D rtf rtf1 keys e h)

theorem GoMap.mem_of_get {κ V : Type} [DecidableEq κ] (m : GoMap κ V) (k : κ) (v : V)
    (h : m.get k = some v) : (k, v) ∈ m := by
  induction m with
  | nil => simp [GoMap.get] at h
  | cons e rest ih =>
    obtain ⟨k1, v1⟩ := e
    by_cases h1 : k1 = k
    · subst h1
      simp only [GoMap.get, if_true, Option.some.injEq] at h
      subst h
      simp
    · simp only [GoMap.get, h1, if_false] at h
      exact List.mem_cons_of_mem _ (ih h)

theorem dsRRMap_mem (rrs : List RR) (m : GoMap Nat DS) (e : Nat × DS)
    (he : e ∈ dsRRMap rrs m) : e ∈ m ∨ (RR.ds e.2 ∈ rrs ∧ e.1 = e.2.KeyTag) := by
  induction rrs generalizing m with
  | nil => exact Or.inl he
  | cons rr rest ih =>
    cases rr with
    | ds d =>
      simp only [dsRRMap] at he
      rcases ih _ he with h | ⟨h1, h2⟩
      · rcases GoMap.mem_of_mem_set _ _ _ _ h with h3 | h3
        · subst h3; exact Or.inr ⟨by simp, rfl⟩
        · exact Or.inl h3
      · exact Or.inr ⟨List.mem_cons_of_mem _ h1, h2⟩
    | rrsig r =>
      simp only [dsRRMap] at he
      rcases ih _ he with h | ⟨h1, h2⟩
      · exact Or.inl h
      · exact Or.inr ⟨List.mem_cons_of_mem _ h1, h2⟩
    | dnskey k =>
      simp only [dsRRMap] at he
      rcases ih _ he with h | ⟨h1, h2⟩
      · exact Or.inl h
      · exact Or.inr ⟨List.mem_cons_of_mem _ h1, h2⟩
    | nsec n =>
      simp only [dsRRMap] at he
      rcases ih _ he with h | ⟨h1, h2⟩
      · exact Or.inl h
      · exact Or.inr ⟨List.mem_cons_of_mem _ h1, h2⟩
    | other hd rd =>
      simp only [dsRRMap] at he
      rcases ih _ he with h | ⟨h1, h2⟩
      · exact Or.inl h
      · exact Or.inr ⟨List.mem_cons_of_mem _ h1, h2⟩

theorem dnskeyRRMap_mem (L : Lib) (rrs : List RR) (m : GoMap Nat DNSKEY) (e : Nat × DNSKEY)
    (he : e ∈ dnskeyRRMap L rrs m) : e ∈ m ∨ (RR.dnskey e.2 ∈ rrs ∧ e.1 = L.KeyTag e.2) := by
  induction rrs generalizing m with
  | nil => exact Or.inl he
  | cons rr rest ih =>
    cases rr with
    | dnskey k =>
      simp only [dnskeyRRMap] at he
      rcases ih _ he with h | ⟨h1, h2⟩
      · rcases GoMap.mem_of_mem_set _ _ _ _ h with h3 | h3
        · subst h3; exact Or.inr ⟨by simp, rfl⟩
        · exact Or.inl h3
      · exact Or.inr ⟨List.mem_cons_of_mem _ h1, h2⟩
    | rrsig r =>
      simp only [dnskeyRRMap] at he
      rcases ih _ he with h | ⟨h1, h2⟩
      · exact Or.inl h
      · exact Or.inr ⟨List.mem_cons_of_mem _ h1, h2⟩
    | ds d =>
      simp only [dnskeyRRMap] at he
      rcases ih _ he with h | ⟨h1, h2⟩
      · exact Or.inl h
      · exact Or.inr ⟨List.mem_cons_of_mem _ h1, h2⟩
    | nsec n =>
      simp only [dnskeyRRMap] at he
      rcases ih _ he with h | ⟨h1, h2⟩
      · exact Or.inl h
      · exact Or.inr ⟨List.mem_cons_of_mem _ h1, h2⟩
    | other hd rd =>
      simp only [dnskeyRRMap] at he
      rcases ih _ he with h | ⟨h1, h2⟩
      · exact Or.inl h
      · exact Or.inr ⟨List.mem_cons_of_mem _ h1, h2⟩

/-- Every key the digest-matching loop adds is a visited, zone-flagged key with
an entry of the DS map under its key tag, of its algorithm and of matching
digest. -/
theorem matchZoneKeys_sound (L : Lib) (dsMap : GoMap Nat DS) (vs : List (Nat × DNSKEY))
    (zoneKeys out : GoMap Nat DNSKEY) (h : matchZoneKeys L dsMap vs zoneKeys = some out)
    (e : Nat × DNSKEY) (he : e ∈ out) :
    e ∈ zoneKeys ∨ (∃ v ∈ vs, e.2 = v.2 ∧ e.2.Flags &&& ZONE ≠ 0 ∧
      ∃ ds, dsMap.get (L.KeyTag e.2) = some ds ∧ e.2.Algorithm = ds.Algorithm ∧
        ∃ dsExpect, L.ToDS e.2 ds.DigestType = some dsExpect ∧
          L.EqualFold ds.Digest dsExpect.Digest = true) := by
  induction vs generalizing zoneKeys with
  | nil =>
    simp only [matchZoneKeys, Option.some.injEq] at h
    subst h; exact Or.inl he
  | cons v rest ih =>
    obtain ⟨t, dnskey⟩ := v
    have lift : ∀ zk, matchZoneKeys L dsMap rest zk = some out → (e ∈ zk → 
        e ∈ zoneKeys ∨ (∃ v ∈ (t, dnskey) :: rest, e.2 = v.2 ∧ e.2.Flags &&& ZONE ≠ 0 ∧
      ∃ ds, dsMap.get (L.KeyTag e.2) = some ds ∧ e.2.Algorithm = ds.Algorithm ∧
        ∃ dsExpect, L.ToDS e.2 ds.DigestType = some dsExpect ∧
          L.EqualFold ds.Digest dsExpect.Digest = true)) →
        e ∈ zoneKeys ∨ (∃ v ∈ (t, dnskey) :: rest, e.2 = v.2 ∧ e.2.Flags &&& ZONE ≠ 0 ∧
      ∃ ds, dsMap.get (L.KeyTag e.2) = some ds ∧ e.2.Algorithm = ds.Algorithm ∧
        ∃ dsExpect, L.ToDS e.2 ds.DigestType = some dsExpect ∧
          L.EqualFold ds.Digest dsExpect.Digest = true) := by
      intro zk hzk hin
      rcases ih zk hzk with h1 | ⟨v, hv, rest1⟩
      · exact hin h1
      · exact Or.inr ⟨v, List.mem_cons_of_mem _ hv, rest1⟩
    simp only [matchZoneKeys] at h
    split at h
    · rename_i hflag
      split at h
      · exact lift _ h Or.inl
      · rename_i ds hds
        split at h
        · rename_i halg
          split at h
          · simp at h
          · rename_i dsExpect hto
            split at h
            · rename_i heq
              refine lift _ h (fun hin => ?_)
              rcases GoMap.mem_of_mem_set _ _ _ _ hin with h3 | h3
              · subst h3
                exact Or.inr ⟨(t, dnskey), by simp, rfl, hflag, ds, hds, halg, dsExpect, hto, heq⟩
              · exact Or.inl h3
            · exact lift _ h Or.inl
        · exact lift _ h Or.inl
    · exact lift _ h Or.inl

/-- Every key the root matching loop adds is a key of the answer whose digest
equals that of an entry of the digest map under its key tag. -/
theorem matchRootKeys_sound (L : Lib) (digests : GoMap Nat KeyDigest) (rrs : List RR)
    (rootKeys out : GoMap Nat DNSKEY) (h : matchRootKeys L digests rrs rootKeys = some out)
    (e : Nat × DNSKEY) (he : e ∈ out) :
    e ∈ rootKeys ∨ (RR.dnskey e.2 ∈ rrs ∧
      ∃ kd, digests.get (L.KeyTag e.2) = some kd ∧
        ∃ ds, L.ToDS e.2 kd.DS.DigestType = some ds ∧
          L.EqualFold ds.Digest kd.DS.Digest = true) := by
  induction rrs generalizing rootKeys with
  | nil =>
    simp only [matchRootKeys, Option.some.injEq] at h
    subst h; exact Or.inl he
  | cons rr rest ih =>
    have lift : ∀ rk, matchRootKeys L digests rest rk = some out → (e ∈ rk →
        e ∈ rootKeys ∨ (RR.dnskey e.2 ∈ rr :: rest ∧
          ∃ kd, digests.get (L.KeyTag e.2) = some kd ∧
            ∃ ds, L.ToDS e.2 kd.DS.DigestType = some ds ∧
              L.EqualFold ds.Digest kd.DS.Digest = true)) →
        e ∈ rootKeys ∨ (RR.dnskey e.2 ∈ rr :: rest ∧
          ∃ kd, digests.get (L.KeyTag e.2) = some kd ∧
            ∃ ds, L.ToDS e.2 kd.DS.DigestType = some ds ∧
              L.EqualFold ds.Digest kd.DS.Digest = true) := by
      intro rk hrk hin
      rcases ih rk hrk with h1 | ⟨hv, rest1⟩
      · exact hin h1
      · exact Or.inr ⟨List.mem_cons_of_mem _ hv, rest1⟩
    cases rr with
    | dnskey k =>
      simp only [matchRootKeys] at h
      split at h
      · exact lift _ h Or.inl
      · rename_i kd hkd
        split at h
        · simp at h
        · rename_i ds hto
          split at h
          · rename_i heq
            refine lift _ h (fun hin => ?_)
            rcases GoMap.mem_of_mem_set _ _ _ _ hin with h3 | h3
            · subst h3
              exact Or.inr ⟨by simp, kd, hkd, ds, hto, heq⟩
            · exact Or.inl h3
          · exact lift _ h Or.inl
    | rrsig r => simp only [matchRootKeys] at h; exact lift _ h Or.inl
    | ds d => simp only [matchRootKeys] at h; exact lift _ h Or.inl
    | nsec n => simp only [matchRootKeys] at h; exact lift _ h Or.inl
    | other hd rd => simp only [matchRootKeys] at h; exact lift _ h Or.inl


/-- Soundness of the delegation-authentication step: every candidate signer is
a zone-flagged key of the DNSKEY response vouched for by a DS record of the
authenticated answer. -/
theorem zone_candidates_sound (L : Lib) (S : Sched) (hS : S.Fair) (dsAnswer keyAnswer : List RR)
    (out : GoMap Nat DNSKEY)
    (h : matchZoneKeys L (dsRRMap dsAnswer []) (S.keys (dnskeyRRMap L keyAnswer [])) []
      = some out)
    (e : Nat × DNSKEY) (he : e ∈ out) :
    RR.dnskey e.2 ∈ keyAnswer ∧ e.2.Flags &&& ZONE ≠ 0
      ∧ ∃ ds, RR.ds ds ∈ dsAnswer ∧ dsMatches L ds e.2 = true := by
  rcases matchZoneKeys_sound L _ _ _ _ h e he with h1 | ⟨v, hv, hev, hflag, ds, hds, halg,
      dsExpect, hto, heq⟩
  · simp at h1
  · have hv1 : v ∈ dnskeyRRMap L keyAnswer [] := (hS.keys _).subset hv
    rcases dnskeyRRMap_mem L _ _ _ hv1 with h2 | ⟨h2, _⟩
    · simp at h2
    · rcases dsRRMap_mem _ _ _ (GoMap.mem_of_get _ _ _ hds) with h3 | ⟨h3, h4⟩
      · simp at h3
      · refine ⟨by rw [hev]; exact h2, hflag, ds, h3, ?_⟩
        simp only at h4
        simp [dsMatches, ← h4, halg, hto, heq]

/-- Soundness of the root matching step: every candidate signer is a key of the
root key-set response whose digest equals that of a trust-anchor entry of the
document that `KeyDigest.Verify` accepts. -/
theorem root_candidates_sound (L : Lib) (now : Int) (doc : List KeyDigest) (answer : List RR)
    (out : GoMap Nat DNSKEY)
    (h : matchRootKeys L (trustKeyDigests now doc []) answer [] = some out)
    (e : Nat × DNSKEY) (he : e ∈ out) :
    RR.dnskey e.2 ∈ answer
      ∧ ∃ kd ∈ doc, kd.Verify now = none
        ∧ ∃ ds, L.ToDS e.2 kd.DS.DigestType = some ds
          ∧ L.EqualFold ds.Digest kd.DS.Digest = true := by
  rcases matchRootKeys_sound L _ _ _ _ h e he with h1 | ⟨h1, kd, hkd, ds, hto, heq⟩
  · simp at h1
  · rcases trustKeyDigests_mem now doc [] _ (GoMap.mem_of_get _ _ _ hkd) with h2 | ⟨h2, h3⟩
    · simp at h2
    · exact ⟨h1, kd, h2, h3, ds, hto, heq⟩

/-! ## Claims on error statuses, the bootstrap and the delegation step -/

/-- C11 (code evaluated at two failing inputs).  First, the collaborator fails on
the target question `(mail.example., A)` with the transport error 1; second, it
answers the target question `(www.example., A)` and fails on the DNSKEY
sub-query for `example.` with the transport error 7.  In both cases
`Resolver.Query` returns the error of the collaborator as it is, which is not
`ErrIndeterminate`. -/
theorem C11_transport_error_is_not_indeterminate :
    (Resolver.Query Example.lib Sched.inOrder (Example.net Example.signedA) 3
        Example.start "mail.example." TypeA).result
      = some (none, some (.transport 1))
    ∧ (Resolver.Query Example.lib Sched.inOrder Example.netDown 3
        Example.start "www.example." TypeA).result
      = some (some (Example.reply Example.signedA []), some (.transport 7))
    ∧ (Resolver.Query Example.lib Sched.inOrder Example.netDown 3
        Example.start "www.example." TypeA).final.map (fun r => r.sent)
      = some [⟨"www.example.", TypeA⟩, ⟨"example.", TypeDNSKEY⟩] := by
  refine ⟨by decide, by decide, by decide⟩

/-- C12.  Let a trust-anchor entry have its `validUntil` before the time of the
call, or its `validFrom` after it.  `KeyDigest.Verify` rejects the entry; the
digest map built from any document holds no entry that `Verify` rejects, so
not this one; and `FetchVerifyRootKeys` returns exactly what it returns on the
document from which the rejected entries have been removed, hence no error on
account of the entry. -/
theorem C12_entry_outside_window_is_dropped_silently {σ : Type} (L : Lib) (S : Sched)
    (E : TrustEnv) (D : DNSResolver σ) (rtf : RootTrustFetcher σ) (kd : KeyDigest)
    (hout : (∃ u, kd.ValidUntil = some u ∧ u < E.now)
      ∨ (∃ f, kd.ValidFrom = some f ∧ E.now < f)) :
    kd.Verify E.now ≠ none
    ∧ (∀ (kds : List KeyDigest) (e : Nat × KeyDigest),
        e ∈ trustKeyDigests E.now kds [] → e.2 ≠ kd)
    ∧ FetchVerifyRootKeys L S E D rtf = FetchVerifyRootKeys L S E.dropRejected D rtf := by
  have h1 := KeyDigest.Verify_outside E.now kd hout
  refine ⟨h1, ?_, (FetchVerifyRootKeys_dropRejected L S E D rtf).symm⟩
  intro kds e he h
  rcases trustKeyDigests_mem _ _ _ _ he with h2 | ⟨_, h3⟩
  · simp at h2
  · rw [h] at h3
    exact h1 h3

/-- Witness for C12: at instant 100 the document lists an entry whose window
ended at instant 50 next to an entry within its window. -/
theorem C12_entry_outside_window_is_dropped_silently_witness :
    Example.anchorExpired.Verify (Example.env [Example.anchorExpired, Example.anchor] true).now
      ≠ none
    ∧ (∀ (kds : List KeyDigest) (e : Nat × KeyDigest),
        e ∈ trustKeyDigests (Example.env [Example.anchorExpired, Example.anchor] true).now kds []
          → e.2 ≠ Example.anchorExpired)
    ∧ FetchVerifyRootKeys Example.lib Sched.inOrder
          (Example.env [Example.anchorExpired, Example.anchor] true)
          (Example.rootNet Example.rootAnswer) Example.fresh
        = FetchVerifyRootKeys Example.lib Sched.inOrder
          (Example.env [Example.anchorExpired, Example.anchor] true).dropRejected
          (Example.rootNet Example.rootAnswer) Example.fresh :=
  C12_entry_outside_window_is_dropped_silently Example.lib Sched.inOrder
    (Example.env [Example.anchorExpired, Example.anchor] true)
    (Example.rootNet Example.rootAnswer) Example.fresh Example.anchorExpired
    (Or.inl ⟨50, rfl, by decide⟩)

/-- C13.  With nothing cached, let both documents be fetched and the signature
container be parsed, and let the check of the detached signature against the
pinned root authority fail.  Then `FetchVerifyRootKeys` returns the error of
the check and leaves `cachedRootKeys` (and the collaborator) as they were.
More generally, for every environment and fetcher state, a call that returns
either returns a nil error or leaves `cachedRootKeys` unchanged. -/
theorem C13_failed_signature_check_caches_nothing {σ : Type} (L : Lib) (S : Sched)
    (E : TrustEnv) (D : DNSResolver σ) (rtf : RootTrustFetcher σ)
    (trustAnchorsXML trustAnchorsSignature : String) (p7 : PKCS7) (c : Nat)
    (hcold : (rtf.cachedRootKeys.getD []).length = 0)
    (hxml : fetchURL E URL_ROOT_ANCHORS = .ok trustAnchorsXML)
    (hsig : fetchURL E URL_ROOT_ANCHORS_SIGNATURE = .ok trustAnchorsSignature)
    (hparse : E.pkcs7Parse trustAnchorsSignature = .ok p7)
    (hbad : E.VerifyWithChain { p7 with Content := trustAnchorsXML } = some c) :
    FetchVerifyRootKeys L S E D rtf
      = .ret ((rtf.cachedRootKeys, some (.pkcs7Verify c)), rtf)
    ∧ ∀ (E1 : TrustEnv) (rtf1 : RootTrustFetcher σ),
        rtf1.cacheKept (FetchVerifyRootKeys L S E1 D rtf1) := by
  refine ⟨?_, fun E1 rtf1 => FetchVerifyRootKeys_cache L S E1 D rtf1⟩
  simp [FetchVerifyRootKeys, hcold, hxml, hsig, hparse, hbad]

/-- Witness for C13: the detached signature does not match the document. -/
theorem C13_failed_signature_check_caches_nothing_witness :
    FetchVerifyRootKeys Example.lib Sched.inOrder (Example.env [Example.anchor] false)
        (Example.rootNet Example.rootAnswer) Example.fresh
      = .ret ((Example.fresh.cachedRootKeys, some (.pkcs7Verify 1)), Example.fresh)
    ∧ ∀ (E1 : TrustEnv) (rtf1 : RootTrustFetcher Unit),
        rtf1.cacheKept (FetchVerifyRootKeys Example.lib Sched.inOrder E1
          (Example.rootNet Example.rootAnswer) rtf1) :=
  C13_failed_signature_check_caches_nothing Example.lib Sched.inOrder
    (Example.env [Example.anchor] false) (Example.rootNet Example.rootAnswer) Example.fresh
    "anchors" "p7s:forged" ⟨"p7s:forged", ""⟩ 1 (by decide) rfl rfl rfl (by decide)

/-- C14 (counterexample).  On the key store of a fresh resolver,
`Add("org.", "", {K1})` (what the absence-proof path passes for a name under
the root) files `K1` under its owner `.`: afterwards the store holds no key
with the tag of `K1` in an entry of the signing zone given to `Add`. -/
theorem C14_counterexample :
    (KeyStore.Add Example.lib Sched.inOrder Example.start.keystore "org." ""
        (some [(826, Example.K1)])).has "" (Example.lib.KeyTag Example.K1) = false
    ∧ (KeyStore.Add Example.lib Sched.inOrder Example.start.keystore "org." ""
        (some [(826, Example.K1)])).has "." (Example.lib.KeyTag Example.K1) = true
    ∧ (Example.start.keystore.Get ".").1 = "" := by
  refine ⟨by decide, by decide, by decide⟩

/-- C14 (amended).  For every key store state and every `Add(child, signer,
keys)`: every (zone, key tag) pair present before is present afterwards; in
every visiting order every key `k` of `keys` is present afterwards under its
own fully qualified owner name and its key tag; and the alias of `child` is
`signer`. -/
theorem C14_add_is_additive_under_owner_name (L : Lib) (S : Sched)
    (ks : KeyStore) (child signer : String) (keys : Option (GoMap Nat DNSKEY)) :
    (∀ (zone : String) (tag : Nat), ks.has zone tag = true →
        (ks.Add L S child signer keys).has zone tag = true)
    ∧ (S.Fair → ∀ e : Nat × DNSKEY, e ∈ keys.getD [] →
        (ks.Add L S child signer keys).has (Fqdn e.2.Hdr.Name) (L.KeyTag e.2) = true)
    ∧ (ks.Add L S child signer keys).signingZoneMap.get child = some signer := by
  refine ⟨?_, ?_, KeyStore.Add_alias L S ks child signer keys⟩
  · intro zone tag hbefore
    exact KeyStore.has_addAll L _ _ zone tag hbefore
  · intro hS e he
    exact KeyStore.has_addAll_mem L _ _ e ((hS.keys _).mem_iff.mpr he)

/-- Witness for C14 (amended): the key of `example.` added to the key store of a
fresh resolver; the root key stays, the key of `example.` is present under its
owner, and the alias is set. -/
theorem C14_add_is_additive_under_owner_name_witness :
    (Example.start.keystore.Add Example.lib Sched.inOrder "example." "example."
        (some [(1122, Example.K2)])).has "." 826 = true
    ∧ (Example.start.keystore.Add Example.lib Sched.inOrder "example." "example."
        (some [(1122, Example.K2)])).has
          (Fqdn ((1122, Example.K2) : Nat × DNSKEY).2.Hdr.Name)
          (Example.lib.KeyTag ((1122, Example.K2) : Nat × DNSKEY).2) = true
    ∧ (Example.start.keystore.Add Example.lib Sched.inOrder "example." "example."
        (some [(1122, Example.K2)])).signingZoneMap.get "example." = some "example." :=
  ⟨(C14_add_is_additive_under_owner_name Example.lib Sched.inOrder
      Example.start.keystore "example." "example." (some [(1122, Example.K2)])).1
      "." 826 (by decide),
   (C14_add_is_additive_under_owner_name Example.lib Sched.inOrder
      Example.start.keystore "example." "example." (some [(1122, Example.K2)])).2.1
      Sched.inOrder_fair (1122, Example.K2) (by decide),
   (C14_add_is_additive_under_owner_name Example.lib Sched.inOrder
      Example.start.keystore "example." "example." (some [(1122, Example.K2)])).2.2⟩

/-- C15.  If the authenticated section (the answer when it is not empty, else
the authority section) holds no signature record, `VerifyMsgSignature` returns
`ErrBogus` and no message, whatever the trusted key set. -/
theorem C15_no_signature_is_bogus (L : Lib) (S : Sched) (msg : Msg)
    (expectedSignerFqdn : String) (keys : Option (GoMap Nat DNSKEY))
    (hno : ∀ s : RRSIG, RR.rrsig s ∉ msg.rrset) :
    VerifyMsgSignature L S msg expectedSignerFqdn keys = (none, some .ErrBogus) := by
  simp [VerifyMsgSignature, collectRRSIGs_nil _ hno]

/-- Witness for C15: an answer that holds the A record alone, checked against an
empty key set. -/
theorem C15_no_signature_is_bogus_witness :
    VerifyMsgSignature Example.lib Sched.inOrder (Example.reply [Example.recA] [])
      "example." none = (none, some .ErrBogus) :=
  C15_no_signature_is_bogus Example.lib Sched.inOrder (Example.reply [Example.recA] [])
    "example." none (by
      intro s hs
      simp [Msg.rrset, Example.reply, Example.recA] at hs)

/-- C16 (code evaluated at the failing input).  The DS record of `example.`,
signed by the root key, matches `K2`.  The DNSKEY response for `example.` holds
`K2`, an A record and the signature of `K2` over the A record; no signature
record of the response covers the type DNSKEY.  `GetVerifiedZoneKeys` takes the
delegation path and returns `example.` with the key set `K2` and a nil error:
the verifier is satisfied by the signature over the A record. -/
theorem C16_key_set_accepted_without_own_signature :
    (GetVerifiedZoneKeys Example.lib Sched.inOrder Example.netStripped 2 Example.start
        "example.").result = some ("example.", some [(1122, Example.K2)], none)
    ∧ (Example.netStripped.Query () ⟨"example.", TypeDNSKEY⟩).1
        = .ok (Example.reply [.dnskey Example.K2, Example.recApex,
            .rrsig (Example.sigBy "example." TypeA "example." Example.K2)] [])
    ∧ collectRRSIGs [.dnskey Example.K2, Example.recApex,
          .rrsig (Example.sigBy "example." TypeA "example." Example.K2)] []
        = [(1122, Example.sigBy "example." TypeA "example." Example.K2)]
    ∧ (Example.sigBy "example." TypeA "example." Example.K2).TypeCovered ≠ TypeDNSKEY
    ∧ VerifyMsgSignature Example.lib Sched.inOrder
          (Example.reply [.dnskey Example.K2, Example.recApex,
            .rrsig (Example.sigBy "example." TypeA "example." Example.K2)] [])
          "example." (some [(1122, Example.K2)])
        = (some (Example.reply [Example.recApex] []), Secure) := by
  refine ⟨by decide, rfl, by decide, by decide, by decide⟩

/-- C17 (code evaluated at the failing input).  The zone `example.` has the two
zone-flagged keys `K2` and `K2c` with the same key tag, and the authenticated DS
answer holds a matching DS record for each.  The maps keyed by key tag keep the
last DS record and the last key only, so the candidate signer set is `K2c`
alone: `K2`, which has a matching DS record, is discarded, and the key set
signed by `K2` is then refused. -/
theorem C17_matching_key_is_discarded :
    matchZoneKeys Example.lib (dsRRMap [Example.recDS, Example.recDSc] [])
        (Sched.inOrder.keys
          (dnskeyRRMap Example.lib [.dnskey Example.K2, .dnskey Example.K2c] [])) []
      = some [(1122, Example.K2c)]
    ∧ Example.K2.Flags &&& ZONE ≠ 0
    ∧ dsMatches Example.lib
        ⟨Example.hdr "example." TypeDS, 1122, 8, 2, "example-KEY"⟩ Example.K2 = true
    ∧ Example.recDS = .ds ⟨Example.hdr "example." TypeDS, 1122, 8, 2, "example-KEY"⟩
    ∧ (GetVerifiedZoneKeys Example.lib Sched.inOrder Example.netCollision 2 Example.start
        "example.").result = some ("", none, some (.verify 1)) := by
  refine ⟨by decide, by decide, by decide, by decide, by decide⟩

/-- C18 (code evaluated at the failing input).  The answer holds an A and a TXT
record set, each with a valid signature by the trusted key `K2`, so the two
signature records carry the same key tag.  The map keyed by key tag keeps the
later one only: the signature over A is never checked, and the `Secure` result
holds the TXT record alone, in either visiting order. -/
theorem C18_same_key_tag_signatures_are_not_both_checked :
    collectRRSIGs Example.bothSigned []
      = [(1122, Example.sigBy "www.example." 16 "example." Example.K2)]
    ∧ VerifyMsgSignature Example.lib Sched.inOrder (Example.reply Example.bothSigned [])
        "example." (some [(1122, Example.K2)])
      = (some (Example.reply [Example.recTXT] []), Secure)
    ∧ VerifyMsgSignature Example.lib Sched.reversed (Example.reply Example.bothSigned [])
        "example." (some [(1122, Example.K2)])
      = (some (Example.reply [Example.recTXT] []), Secure)
    ∧ Example.lib.Verify (Example.sigBy "www.example." TypeA "example." Example.K2)
        Example.K2 [Example.recA] = none
    ∧ Example.recA ∈ Example.bothSigned := by
  refine ⟨by decide, by decide, by decide, by decide, by decide⟩

/-- C19.  Let `z` miss the key store, let the recursive call on the parent of
`z` return `(p, keysP)` without error, and let both sub-queries for `z` be
answered.  If `VerifyMsgSignature` accepts the DS response against `keysP`, the
authenticated message has an empty answer and no NSEC record of its authority
section has an owner equal to `z` under `strings.EqualFold`, then
`GetVerifiedZoneKeys(z)` returns `ErrBogus`, and the key store it leaves is the
one the resolution of the parent left: no alias is recorded for `z`. -/
theorem C19_unexplained_empty_answer_is_bogus {σ : Type} (L : Lib) (S : Sched)
    (D : DNSResolver σ) (depth : Nat) (r r1 r2 r3 : Resolver σ) (z p : String)
    (keysP : Option (GoMap Nat DNSKEY)) (keyMsg dsMsg0 dsMsg : Msg)
    (hmiss : (r.keystore.Get z).2 = none)
    (hparent : GetVerifiedZoneKeys L S D depth r (getParentFQDN z)
      = .ret ((p, keysP, none), r1))
    (hkey : r1.ask D z TypeDNSKEY = (.ok keyMsg, r2))
    (hds : r2.ask D z TypeDS = (.ok dsMsg0, r3))
    (hver : VerifyMsgSignature L S dsMsg0 p keysP = (some dsMsg, none))
    (hempty : dsMsg.Answer = [])
    (hnone : ∀ n : NSEC, RR.nsec n ∈ dsMsg.Ns → L.EqualFold n.Hdr.Name z = false) :
    GetVerifiedZoneKeys L S D (depth + 1) r z
      = .ret (((r.keystore.Get z).1, none, some .ErrBogus), r3)
    ∧ r3.keystore = r1.keystore
    ∧ r3.keystore.signingZoneMap.get z = r1.keystore.signingZoneMap.get z := by
  have hroot : z ≠ "." := by
    intro h
    subst h
    have h1 : getParentFQDN "." = "." := by decide
    rw [h1] at hparent
    exact GetVerifiedZoneKeys_root_miss L S D depth r r1 p keysP hmiss hparent
  have hnsec := hasNSECFor_false L dsMsg.Ns z hnone
  have hks : r3.keystore = r1.keystore := by
    have h2 : r2.keystore = r1.keystore := by
      rw [← Resolver.ask_keystore D r1 z TypeDNSKEY, hkey]
    rw [← h2, ← Resolver.ask_keystore D r2 z TypeDS, hds]
  refine ⟨?_, hks, by rw [hks]⟩
  simp [GetVerifiedZoneKeys, hmiss, hroot, hparent, hkey, hds, hver, hempty, hnsec]

/-- Witness for C19: `ftp.example.` on a resolver that serves `example.`; the
authority section of its DS response proves the absence of another name. -/
theorem C19_unexplained_empty_answer_is_bogus_witness :
    GetVerifiedZoneKeys Example.lib Sched.inOrder Example.netNoProof (1 + 1)
        Example.cached "ftp.example."
      = .ret (((Example.cached.keystore.Get "ftp.example.").1, none, some .ErrBogus),
          ((Example.cached.ask Example.netNoProof "ftp.example." TypeDNSKEY).2.ask
            Example.netNoProof "ftp.example." TypeDS).2)
    ∧ ((Example.cached.ask Example.netNoProof "ftp.example." TypeDNSKEY).2.ask
          Example.netNoProof "ftp.example." TypeDS).2.keystore = Example.cached.keystore
    ∧ ((Example.cached.ask Example.netNoProof "ftp.example." TypeDNSKEY).2.ask
          Example.netNoProof "ftp.example." TypeDS).2.keystore.signingZoneMap.get
            "ftp.example."
        = Example.cached.keystore.signingZoneMap.get "ftp.example." :=
  C19_unexplained_empty_answer_is_bogus Example.lib Sched.inOrder Example.netNoProof 1
    Example.cached Example.cached
    (Example.cached.ask Example.netNoProof "ftp.example." TypeDNSKEY).2
    ((Example.cached.ask Example.netNoProof "ftp.example." TypeDNSKEY).2.ask
      Example.netNoProof "ftp.example." TypeDS).2
    "ftp.example." "example." (some [(1122, Example.K2)])
    (Example.reply [] [])
    (Example.reply [] [Example.recNSEC,
      .rrsig (Example.sigBy "www.example." TypeNSEC "example." Example.K2)])
    (Example.reply [] [Example.recNSEC])
    (by decide) rfl rfl rfl (by decide) rfl
    (by
      intro n hn
      have h : n = ⟨Example.hdr "www.example." TypeNSEC, "zzz.example.",
          [TypeA, TypeRRSIG, TypeNSEC]⟩ := by
        simpa [Example.reply, Example.recNSEC] using hn
      subst h
      decide)

/-- C20 (code evaluated at the failing input).  The root key-set response holds
the key `K0`, whose zone flag is clear, with its self-signature; the digest of
`K0` equals that of the trust-anchor entry, which is within its window.
`FetchVerifyRootKeys` takes `K0` into the candidate signer set, verifies the
response with it and returns it as the root key set. -/
theorem C20_root_key_without_zone_flag_is_a_candidate :
    Example.K0.Flags &&& ZONE = 0
    ∧ matchRootKeys Example.lib (trustKeyDigests 100 [Example.anchor] [])
        [.dnskey Example.K0, .rrsig (Example.sigBy "." TypeDNSKEY "." Example.K0)] []
      = some [(826, Example.K0)]
    ∧ (FetchVerifyRootKeys Example.lib Sched.inOrder (Example.env [Example.anchor] true)
        (Example.rootNet
          [.dnskey Example.K0, .rrsig (Example.sigBy "." TypeDNSKEY "." Example.K0)])
        Example.fresh).result = some (some [(826, Example.K0)], none) := by
  refine ⟨by decide, by decide, by decide⟩

/-! ## Facts about names and the parent walk -/

theorem nextLabelLoop_cons (c : Char) (tail : List Char) (i bs : Nat) (h : tail ≠ []) :
    nextLabelLoop (c :: tail) i bs =
      if c ≠ '.' then nextLabelLoop tail (i + 1) (if c = '\\' then bs + 1 else 0)
      else if (bs + 1) % 2 = 0 then nextLabelLoop tail (i + 1) 0
      else (i + 1, false) := by
  cases tail with
  | nil => exact absurd rfl h
  | cons d rest => rfl

theorem countSeparators_cons (c : Char) (tail : List Char) (bs : Nat) (h : tail ≠ []) :
    countSeparators (c :: tail) bs =
      if c ≠ '.' then countSeparators tail (if c = '\\' then bs + 1 else 0)
      else if (bs + 1) % 2 = 0 then countSeparators tail 0
      else 1 + countSeparators tail 0 := by
  cases tail with
  | nil => exact absurd rfl h
  | cons d rest => rfl

/-- What `NextLabel` returns, in terms of the separators of the name: with no
separator it reports the end; otherwise it returns the index `k` right after
the first separator, and the rest of the name has one separator less. -/
theorem nextLabelLoop_spec (l : List Char) (i bs : Nat) (hl : l ≠ []) :
    (nextLabelLoop l i bs = (i + l.length, true) ∧ countSeparators l bs = 0)
    ∨ ∃ k, nextLabelLoop l i bs = (i + k, false) ∧ 1 ≤ k ∧ k < l.length
        ∧ countSeparators l bs = 1 + countSeparators (l.drop k) 0 := by
  induction l generalizing i bs with
  | nil => exact absurd rfl hl
  | cons c tail ih =>
    cases tail with
    | nil => left; exact ⟨rfl, rfl⟩
    | cons d rest =>
      have ht : d :: rest ≠ [] := by simp
      rw [nextLabelLoop_cons c _ i bs ht, countSeparators_cons c _ bs ht]
      by_cases hc : c ≠ '.'
      · rw [if_pos hc, if_pos hc]
        rcases ih (i + 1) (if c = '\\' then bs + 1 else 0) ht with ⟨h1, h2⟩ | ⟨k, h1, h2, h3, h4⟩
        · left
          refine ⟨?_, h2⟩
          rw [h1]; simp only [List.length_cons]; congr 1; omega
        · right
          refine ⟨k + 1, ?_, by omega, by simp only [List.length_cons] at h3 ⊢; omega, ?_⟩
          · rw [h1]; congr 1; omega
          · rw [h4]; rfl
      · rw [if_neg hc, if_neg hc]
        by_cases hb : (bs + 1) % 2 = 0
        · rw [if_pos hb, if_pos hb]
          rcases ih (i + 1) 0 ht with ⟨h1, h2⟩ | ⟨k, h1, h2, h3, h4⟩
          · left
            refine ⟨?_, h2⟩
            rw [h1]; simp only [List.length_cons]; congr 1; omega
          · right
            refine ⟨k + 1, ?_, by omega, by simp only [List.length_cons] at h3 ⊢; omega, ?_⟩
            · rw [h1]; congr 1; omega
            · rw [h4]; rfl
        · rw [if_neg hb, if_neg hb]
          right
          exact ⟨1, rfl, le_refl 1, by simp, rfl⟩

/-- One more byte after the name makes its last byte visible to the scan: it
counts as a separator exactly when it is a dot after an even run of
backslashes. -/
theorem countSeparators_snoc (l : List Char) (c c1 : Char) (bs : Nat) :
    countSeparators (l ++ [c] ++ [c1]) bs
      = countSeparators (l ++ [c]) bs
        + (if c = '.' ∧ (runEnd l bs + 1) % 2 ≠ 0 then 1 else 0) := by
  induction l generalizing bs with
  | nil =>
    simp only [List.nil_append, List.singleton_append, runEnd]
    rw [countSeparators_cons c [c1] bs (by simp)]
    by_cases hc : c = '.'
    · by_cases hb : (bs + 1) % 2 = 0
      · simp [hc, hb, countSeparators]
      · simp [hc, hb, countSeparators]
    · simp [hc, countSeparators]
  | cons a rest ih =>
    have h1 : rest ++ [c] ++ [c1] ≠ [] := by simp
    have h2 : rest ++ [c] ≠ [] := by simp
    simp only [List.cons_append]
    rw [countSeparators_cons a _ bs h1, countSeparators_cons a _ bs h2]
    simp only [runEnd]
    by_cases ha : a ≠ '.'
    · rw [if_pos ha, if_pos ha]
      exact ih _
    · rw [if_neg ha, if_neg ha]
      have ha1 : a = '.' := by simpa using ha
      have ha2 : ¬ a = '\\' := by rw [ha1]; decide
      have ha3 : (if a = '\\' then bs + 1 else 0) = 0 := if_neg ha2
      simp only [ha3]
      by_cases hb : (bs + 1) % 2 = 0
      · rw [if_pos hb, if_pos hb]; exact ih 0
      · rw [if_neg hb, if_neg hb, ih 0]; omega

/-- The run of backslashes the scan has counted at the end of a prefix is the
run of backslashes the prefix ends in. -/
theorem runEnd_eq (l : List Char) (bs : Nat) :
    runEnd l bs
      = if (∀ x ∈ l, x = '\\') then bs + l.length
        else (l.reverse.takeWhile (fun x => decide (x = '\\'))).length := by
  induction l generalizing bs with
  | nil => simp [runEnd]
  | cons a rest ih =>
    simp only [runEnd, List.reverse_cons, List.length_cons]
    rw [ih]
    by_cases hall : ∀ x ∈ rest, x = '\\'
    · have hrev : ∀ x ∈ rest.reverse, (fun x => decide (x = '\\')) x = true := by
        intro x hx; simpa using hall x (List.mem_reverse.mp hx)
      rw [List.takeWhile_append_of_pos hrev]
      by_cases ha : a = '\\'
      · have : ∀ x ∈ a :: rest, x = '\\' := by
          intro x hx
          rcases List.mem_cons.mp hx with h | h
          · rw [h, ha]
          · exact hall x h
        rw [if_pos hall, if_pos ha, if_pos this]
        omega
      · have : ¬ ∀ x ∈ a :: rest, x = '\\' := fun h => ha (h a (by simp))
        rw [if_pos hall, if_neg ha, if_neg this]
        simp [List.takeWhile, ha]
    · have : ¬ ∀ x ∈ a :: rest, x = '\\' :=
        fun h => hall (fun x hx => h x (List.mem_cons_of_mem _ hx))
      rw [if_neg hall, if_neg this]
      rw [List.takeWhile_append]
      have hlen : ¬ (rest.reverse.takeWhile (fun x => decide (x = '\\'))).length
          = rest.reverse.length := by
        intro h
        apply hall
        have h1 : rest.reverse.takeWhile (fun x => decide (x = '\\')) = rest.reverse := by
          have hp := List.takeWhile_append_dropWhile (fun x => decide (x = '\\')) rest.reverse
          have hd : (rest.reverse.dropWhile (fun x => decide (x = '\\'))).length = 0 := by
            have := congrArg List.length hp
            simp only [List.length_append] at this
            omega
          rw [List.length_eq_zero] at hd
          rw [hd, List.append_nil] at hp
          exact hp
        intro x hx
        have h2 := (List.takeWhile_eq_self_iff.mp h1) x (List.mem_reverse.mpr hx)
        simpa using h2
      rw [if_neg hlen]

theorem IsFqdn_snoc (l : List Char) (c : Char) :
    IsFqdn (String.mk (l ++ [c])) = (decide (c = '.') && decide ((runEnd l 0 + 1) % 2 ≠ 0)) := by
  have hr := runEnd_eq l 0
  have hT : runEnd l 0 = (l.reverse.takeWhile (fun x => decide (x = '\\'))).length := by
    rw [hr]
    split
    · rename_i hall
      have hrev : ∀ x ∈ l.reverse, (fun x => decide (x = '\\')) x = true := by
        intro x hx; simpa using hall x (List.mem_reverse.mp hx)
      have := List.takeWhile_eq_self_iff.mpr hrev
      rw [this]; simp
    · rfl
  simp only [IsFqdn, List.reverse_append, List.reverse_cons, List.reverse_nil, List.nil_append,
    List.singleton_append]
  by_cases hc : c = '.'
  · simp [hc, hT]
  · simp [hc]


/-- Making a name fully qualified adds no separator. -/
theorem countSeparators_Fqdn (rest : List Char) (h : rest ≠ []) :
    countSeparators (Fqdn (String.mk rest)).data 0 = countSeparators rest 0 := by
  obtain ⟨l, c, hlc⟩ : ∃ l c, rest = l ++ [c] :=
    ⟨rest.dropLast, rest.getLast h, (List.dropLast_append_getLast h).symm⟩
  subst hlc
  unfold Fqdn
  by_cases hf : IsFqdn (String.mk (l ++ [c])) = true
  · rw [if_pos hf]
  · rw [if_neg hf]
    have hd : (String.mk (l ++ [c]) ++ ".").data = l ++ [c] ++ ['.'] := rfl
    rw [hd, countSeparators_snoc]
    rw [IsFqdn_snoc] at hf
    have : ¬ (c = '.' ∧ (runEnd l 0 + 1) % 2 ≠ 0) := by
      intro h1
      apply hf
      simp [h1.1, h1.2]
    rw [if_neg this]
    rfl

/-- The parent of a name other than the root has fewer labels. -/
theorem CountLabel_getParentFQDN (s : String) (hs : s ≠ ".") :
    CountLabel (getParentFQDN s) + 1 ≤ CountLabel s := by
  by_cases he : s = ""
  · subst he; decide
  · have hd : s.data ≠ [] := by
      intro h
      apply he
      cases s
      simp only at h
      subst h
      rfl
    have hN : NextLabel s = nextLabelLoop s.data 0 0 := by simp [NextLabel, he]
    have hC : CountLabel s = countSeparators s.data 0 + 1 := by simp [CountLabel, hs]
    rcases nextLabelLoop_spec s.data 0 0 hd with ⟨h1, h2⟩ | ⟨k, h1, h2, h3, h4⟩
    · have hp : getParentFQDN s = "." := by
        unfold getParentFQDN
        rw [hN, h1]
        simp only [Nat.zero_add, List.drop_length]
        decide
      rw [hp, hC]
      have : CountLabel "." = 0 := by decide
      omega
    · have hne : s.data.drop k ≠ [] := by
        intro h
        have := congrArg List.length h
        simp only [List.length_drop, List.length_nil] at this
        omega
      have hp : getParentFQDN s = Fqdn (String.mk (s.data.drop k)) := by
        unfold getParentFQDN
        rw [hN, h1]
        simp
      have hle : CountLabel (getParentFQDN s) ≤ countSeparators (s.data.drop k) 0 + 1 := by
        rw [hp]
        unfold CountLabel
        split
        · omega
        · rw [countSeparators_Fqdn _ hne]
      omega

/-- The parent walk reaches the root within the label count. -/
theorem parent_walk_reaches_root (n : Nat) (s : String) (h : CountLabel s ≤ n) :
    ∃ k, k ≤ CountLabel s ∧ getParentFQDN^[k] s = "." := by
  induction n generalizing s with
  | zero =>
    have hs : s = "." := by
      by_contra hne
      have := CountLabel_getParentFQDN s hne
      omega
    exact ⟨0, Nat.zero_le _, hs⟩
  | succ n ih =>
    by_cases hs : s = "."
    · exact ⟨0, Nat.zero_le _, hs⟩
    · have hlt := CountLabel_getParentFQDN s hs
      obtain ⟨k, hk1, hk2⟩ := ih (getParentFQDN s) (by omega)
      exact ⟨k + 1, by omega, by rw [Function.iterate_succ_apply]; exact hk2⟩

/-- A recursion budget above the label count is never used up. -/
theorem GetVerifiedZoneKeys_terminates {σ : Type} (L : Lib) (S : Sched) (D : DNSResolver σ)
    (depth : Nat) (r : Resolver σ) (z : String) (h : CountLabel z < depth) :
    GetVerifiedZoneKeys L S D depth r z ≠ .diverge := by
  induction depth generalizing r z with
  | zero => omega
  | succ d ih =>
    intro hdiv
    by_cases hhit : (r.keystore.Get z).2.isSome = true
    · rw [GetVerifiedZoneKeys_hit L S D d r z hhit] at hdiv
      cases hdiv
    · by_cases hz : z = "."
      · simp only [GetVerifiedZoneKeys, hz] at hdiv
        split at hdiv <;> cases hdiv
      · have hlt : CountLabel (getParentFQDN z) < d := by
          have := CountLabel_getParentFQDN z hz
          omega
        have hrec := ih r (getParentFQDN z) hlt
        have hmiss : (r.keystore.Get z).2.isSome = false := by simpa using hhit
        cases hp : GetVerifiedZoneKeys L S D d r (getParentFQDN z) with
        | diverge => exact hrec hp
        | panic => simp [GetVerifiedZoneKeys, hmiss, hz, hp] at hdiv
        | ret a =>
          obtain ⟨⟨p, keysP, err⟩, r1⟩ := a
          cases err with
          | some e => simp [GetVerifiedZoneKeys, hmiss, hz, hp] at hdiv
          | none =>
            rcases hk : r1.ask D z TypeDNSKEY with ⟨k1, r2⟩
            cases k1 with
            | error c => simp [GetVerifiedZoneKeys, hmiss, hz, hp, hk] at hdiv
            | ok keyMsg =>
              rcases hd : r2.ask D z TypeDS with ⟨d1, r3⟩
              cases d1 with
              | error c => simp [GetVerifiedZoneKeys, hmiss, hz, hp, hk, hd] at hdiv
              | ok dsMsg0 =>
                rcases hv : VerifyMsgSignature L S dsMsg0 p keysP with ⟨v1, v2⟩
                cases v2 with
                | some e => simp [GetVerifiedZoneKeys, hmiss, hz, hp, hk, hd, hv] at hdiv
                | none =>
                  cases v1 with
                  | none => simp [GetVerifiedZoneKeys, hmiss, hz, hp, hk, hd, hv] at hdiv
                  | some dsMsg =>
                    by_cases he : dsMsg.Answer.length = 0
                    · by_cases hn : hasNSECFor L dsMsg.Ns z = true
                      · simp [GetVerifiedZoneKeys, hmiss, hz, hp, hk, hd, hv, he, hn] at hdiv
                      · simp [GetVerifiedZoneKeys, hmiss, hz, hp, hk, hd, hv, he, hn] at hdiv
                    · cases hm : matchZoneKeys L (dsRRMap dsMsg.Answer [])
                          (S.keys (dnskeyRRMap L keyMsg.Answer [])) [] with
                      | none =>
                        simp [GetVerifiedZoneKeys, hmiss, hz, hp, hk, hd, hv, he, hm] at hdiv
                      | some zoneKeys =>
                        rcases hw : VerifyMsgSignature L S keyMsg z (some zoneKeys) with ⟨w1, w2⟩
                        cases w2 with
                        | some e =>
                          simp [GetVerifiedZoneKeys, hmiss, hz, hp, hk, hd, hv, he, hm, hw] at hdiv
                        | none =>
                          cases w1 with
                          | none =>
                            simp [GetVerifiedZoneKeys, hmiss, hz, hp, hk, hd, hv, he, hm, hw]
                              at hdiv
                          | some keyMsg1 =>
                            simp [GetVerifiedZoneKeys, hmiss, hz, hp, hk, hd, hv, he, hm, hw]
                              at hdiv

/-! ## Claims on termination, the expected signer and run-time panics -/

/-- C21.  For every name `s`: the parent of `s` is `s` without its bytes up to
and including the first label separator, made fully qualified, and it is the
root when `s` has at most one label; the parent walk `getParentFQDN` reaches the root `.` from `s` after
at most `CountLabel s` steps; and `GetVerifiedZoneKeys` on `s`, for every
library, visiting order, collaborator and resolver state, ends (returns or
panics) within every recursion budget above the label count of `s`. -/
theorem C21_parent_walk_terminates {σ : Type} (L : Lib) (S : Sched) (D : DNSResolver σ)
    (r : Resolver σ) (s : String) (extra : Nat) :
    getParentFQDN s = Fqdn (String.mk (s.data.drop (NextLabel s).1))
    ∧ (getParentFQDN s = "." ∨ 2 ≤ CountLabel s)
    ∧ (∃ k, k ≤ CountLabel s ∧ getParentFQDN^[k] s = ".")
    ∧ GetVerifiedZoneKeys L S D (CountLabel s + 1 + extra) r s ≠ .diverge := by
  refine ⟨rfl, ?_, parent_walk_reaches_root (CountLabel s) s (le_refl _),
    GetVerifiedZoneKeys_terminates L S D _ r s (by omega)⟩
  by_cases hs : s = "."
  · left; subst hs; decide
  · by_cases h2 : 2 ≤ CountLabel s
    · exact Or.inr h2
    · left
      have h1 := CountLabel_getParentFQDN s hs
      have h0 : CountLabel (getParentFQDN s) = 0 := by omega
      by_contra hne
      have := CountLabel_getParentFQDN (getParentFQDN s) hne
      omega

/-- C22.  `VerifyMsgSignature` returns the same status and the same message for
any two expected signer names, all other arguments equal. -/
theorem C22_expected_signer_is_ignored (L : Lib) (S : Sched) (msg : Msg)
    (signerA signerB : String) (keys : Option (GoMap Nat DNSKEY)) :
    VerifyMsgSignature L S msg signerA keys = VerifyMsgSignature L S msg signerB keys := rfl

/-- C23 (code evaluated at two failing inputs).  The library computes no digest
for the digest type 3.  First, the authenticated DS answer for `example.` holds
a DS record of that type with the key tag and algorithm of the zone-flagged key
`K2`: `GetVerifiedZoneKeys` panics on the nil digest object.  Second, the only
surviving trust-anchor entry has that digest type and the key tag of the root
key: `FetchVerifyRootKeys` panics the same way. -/
theorem C23_unsupported_digest_type_panics :
    Example.lib.ToDS Example.K2 3 = none
    ∧ GetVerifiedZoneKeys Example.lib Sched.inOrder Example.netUnsupported 2 Example.start
        "example." = .panic
    ∧ Example.anchorUnsupported.Verify 100 = none
    ∧ FetchVerifyRootKeys Example.lib Sched.inOrder
        (Example.env [Example.anchorUnsupported] true)
        (Example.rootNet Example.rootAnswer) Example.fresh = .panic := by
  refine ⟨by decide, rfl, by decide, rfl⟩

/-- C24 (code evaluated at the failing input).  The first line
`router nick 192.0.2.7 9001 0 9030` has six space-separated tokens, the first
being `router`, and passes the token-count check; `Next` reads the tokens 2 to
6, the ports from the tokens 4, 5 and 6, and panics on the missing token 6.
With a seventh token the same descriptor is returned, its fields shifted by
one token. -/
theorem C24_six_token_router_line_panics :
    Tordir.Split "router nick 192.0.2.7 9001 0 9030"
      = ["router", "nick", "192.0.2.7", "9001", "0", "9030"]
    ∧ Tordir.Next Example.decode Example.sixTokens = .panic
    ∧ (Tordir.Next Example.decode Example.sevenTokens).result
      = some (some ⟨"192.0.2.7", "9001", 0, 9030, 80, [65, 81, 81, 65, 66, 104, 116, 90]⟩,
          none) := by
  refine ⟨by decide, by decide, by decide⟩

end Dnssec
